import Mathlib

/-!
Verification of the generation request pipeline of the zhouwenwang divination
application (src/zhouwenwang-divination/src/masters/service.ts).

The pipeline is embedded shallowly: strings are lists of characters
(JS strings are finite character sequences), the incremental stream decoders
become explicit folds over chunk lists with the exact buffering, trimming,
line-splitting and record-dispatch logic of the source, the transport-tier
orchestrator becomes a pure function from an environment (probe outcomes,
tier call outcomes, settings snapshot) to a result together with the list of
observable transport events, and the error classifiers become total functions
over the shape of the caught error.  JSON.parse, a platform builtin, is kept
abstract: every decoder is parameterised by a line parser, and concrete
instances restrict JSON parsing to the wire grammar of the proxy/provider
events.
-/

namespace ZWW

/-- Character strings, as in the JS runtime: finite sequences of characters. -/
abbrev Str := List Char

/-- Whitespace recognised by `String.prototype.trim` (the characters that occur
in this pipeline's streams). -/
def isWSChar (c : Char) : Bool :=
  c = ' ' || c = '\n' || c = '\t' || c = '\r'

/-- Embedding of `s.trim()`: drop leading and trailing whitespace. -/
def trimChars (s : Str) : Str :=
  ((s.dropWhile isWSChar).reverse.dropWhile isWSChar).reverse

/-- Embedding of `s.split('\n')`, split into the complete (newline-terminated)
lines and the trailing remainder after the last newline.  JS
`"a\nb".split('\n') = ["a","b"]` corresponds to `(["a"], "b")` here. -/
def splitLinesP : Str → List Str × Str
  | [] => ([], [])
  | c :: cs =>
    let p := splitLinesP cs
    if c = '\n' then ([] :: p.1, p.2)
    else
      match p.1 with
      | [] => ([], c :: p.2)
      | l :: ls => ((c :: l) :: ls, p.2)

/-- Embedding of `hay.includes(needle)` (JS contiguous substring test). -/
def strContains : Str → Str → Bool
  | hay, needle =>
    needle.isPrefixOf hay ||
      (match hay with
       | [] => false
       | _ :: t => strContains t needle)

/-- Prefix order on strings, as an explicit decomposition. -/
def PrefixOfP (a b : Str) : Prop := ∃ t, b = a ++ t

theorem isPrefixOf_iff_exists (a b : Str) :
    a.isPrefixOf b = true ↔ ∃ t, b = a ++ t := by
  induction a generalizing b with
  | nil => simp [List.isPrefixOf]
  | cons x xs ih =>
    cases b with
    | nil => simp [List.isPrefixOf]
    | cons y ys =>
      simp only [List.isPrefixOf, Bool.and_eq_true, beq_iff_eq, ih]
      constructor
      · rintro ⟨rfl, t, rfl⟩; exact ⟨t, rfl⟩
      · rintro ⟨t, h⟩
        injection h with h1 h2
        exact ⟨h1.symm, t, h2⟩

theorem strContains_iff (hay needle : Str) :
    strContains hay needle = true ↔ ∃ p q, hay = p ++ needle ++ q := by
  induction hay with
  | nil =>
    simp only [strContains, Bool.or_false, isPrefixOf_iff_exists]
    constructor
    · rintro ⟨t, h⟩
      refine ⟨[], t, ?_⟩
      simpa using h
    · rintro ⟨p, q, h⟩
      have h' := h.symm
      have hq : q = [] := (List.append_eq_nil.mp h').2
      rcases List.append_eq_nil.mp (List.append_eq_nil.mp h').1 with ⟨hp, hn⟩
      refine ⟨q, ?_⟩
      simp [hn, hq]
  | cons c t ih =>
    simp only [strContains, Bool.or_eq_true, isPrefixOf_iff_exists, ih]
    constructor
    · rintro (⟨u, hu⟩ | ⟨p, q, hpq⟩)
      · exact ⟨[], u, by simpa using hu⟩
      · exact ⟨c :: p, q, by simp [hpq]⟩
    · rintro ⟨p, q, hpq⟩
      cases p with
      | nil => exact Or.inl ⟨q, by simpa using hpq⟩
      | cons d p' =>
        injection hpq with h1 h2
        exact Or.inr ⟨p', q, h2⟩

/-! Properties of `splitLinesP` needed for the chunk-boundary analysis. -/

theorem splitLinesP_no_newline (s : Str) (h : ∀ c ∈ s, c ≠ '\n') :
    splitLinesP s = ([], s) := by
  induction s with
  | nil => rfl
  | cons c cs ih =>
    have hc : c ≠ '\n' := h c (by simp)
    have hrest : splitLinesP cs = ([], cs) := ih fun x hx => h x (by simp [hx])
    simp [splitLinesP, hrest, hc]

theorem splitLinesP_rem_no_newline (s : Str) :
    ∀ c ∈ (splitLinesP s).2, c ≠ '\n' := by
  induction s with
  | nil => simp [splitLinesP]
  | cons c cs ih =>
    by_cases hc : c = '\n'
    · simpa [splitLinesP, hc] using ih
    · simp only [splitLinesP, hc, if_false]
      cases hp : (splitLinesP cs).1 with
      | nil =>
        intro x hx
        rcases List.mem_cons.mp hx with rfl | hx'
        · exact hc
        · exact ih x hx'
      | cons l ls =>
        intro x hx
        exact ih x hx

theorem splitLinesP_mem_newline (s : Str) (h : '\n' ∈ s) :
    (splitLinesP s).1 ≠ [] := by
  induction s with
  | nil => simp at h
  | cons c cs ih =>
    by_cases hc : c = '\n'
    · simp [splitLinesP, hc]
    · have hmem : '\n' ∈ cs := by
        rcases List.mem_cons.mp h with h1 | h2
        · exact absurd h1.symm hc
        · exact h2
      have := ih hmem
      simp only [splitLinesP, hc, if_false]
      cases hp : (splitLinesP cs).1 with
      | nil => exact absurd (by simp [hp]) this
      | cons l ls => simp

/-- Feeding `a ++ b` to the line splitter is feeding `a`, carrying the
remainder over, and feeding the remainder followed by `b`. -/
theorem splitLinesP_append (a b : Str) :
    splitLinesP (a ++ b) =
      ((splitLinesP a).1 ++ (splitLinesP ((splitLinesP a).2 ++ b)).1,
       (splitLinesP ((splitLinesP a).2 ++ b)).2) := by
  induction a with
  | nil => simp [splitLinesP]
  | cons c cs ih =>
    by_cases hc : c = '\n'
    · simp [splitLinesP, hc, ih]
    · cases hp : (splitLinesP cs).1 with
      | nil =>
        show splitLinesP (c :: (cs ++ b)) = _
        have hrhs : splitLinesP (c :: cs) = ([], c :: (splitLinesP cs).2) := by
          simp [splitLinesP, hc, hp]
        rw [hrhs]
        simp only [List.nil_append]
        have hlhs : splitLinesP (c :: (cs ++ b)) =
            splitLinesP (c :: ((splitLinesP cs).2 ++ b)) := by
          simp only [splitLinesP, hc, if_false]
          rw [ih, hp]
          simp
        rw [hlhs]
        rfl
      | cons l ls =>
        show splitLinesP (c :: (cs ++ b)) = _
        have hrhs : splitLinesP (c :: cs) = ((c :: l) :: ls, (splitLinesP cs).2) := by
          simp [splitLinesP, hc, hp]
        rw [hrhs]
        simp only [splitLinesP, hc, if_false]
        rw [ih, hp]
        simp

/-! Trim idempotence (used for the non-whitespace guarantee of C6). -/

theorem dropWhile_idem (p : Char → Bool) (l : Str) :
    (l.dropWhile p).dropWhile p = l.dropWhile p := by
  induction l with
  | nil => rfl
  | cons a t ih =>
    by_cases h : p a
    · simp [List.dropWhile_cons, h, ih]
    · simp [List.dropWhile_cons, h]

theorem dropWhile_head_not (p : Char → Bool) (l : Str) (a : Char)
    (h : (l.dropWhile p).head? = some a) : p a = false := by
  induction l with
  | nil => simp [List.dropWhile] at h
  | cons x t ih =>
    by_cases hx : p x
    · exact ih (by simpa [List.dropWhile_cons, hx] using h)
    · rw [Bool.not_eq_true] at hx
      simp only [List.dropWhile_cons, hx, Bool.false_eq_true, if_false,
        List.head?_cons, Option.some.injEq] at h
      subst h
      exact hx

theorem dropWhile_eq_self_of_head (p : Char → Bool) (l : Str)
    (h : ∀ a, l.head? = some a → p a = false) : l.dropWhile p = l := by
  cases l with
  | nil => rfl
  | cons x t => simp [List.dropWhile_cons, h x rfl]

theorem trimChars_idem (s : Str) : trimChars (trimChars s) = trimChars s := by
  simp only [trimChars]
  set A := s.dropWhile isWSChar with hA
  set B := A.reverse.dropWhile isWSChar with hB
  have hAeq : A = B.reverse ++ (A.reverse.takeWhile isWSChar).reverse := by
    conv_lhs => rw [← List.reverse_reverse A,
      ← List.takeWhile_append_dropWhile isWSChar A.reverse, List.reverse_append]
  have h1 : B.reverse.dropWhile isWSChar = B.reverse := by
    apply dropWhile_eq_self_of_head
    intro a ha
    have hAhead : A.head? = some a := by
      rw [hAeq]
      cases hc : B.reverse with
      | nil => rw [hc] at ha; simp at ha
      | cons b bs =>
        rw [hc] at ha
        simp only [List.head?_cons, Option.some.injEq] at ha
        simpa [List.cons_append] using ha
    exact dropWhile_head_not isWSChar s a hAhead
  rw [h1, List.reverse_reverse]
  have h2 : B.dropWhile isWSChar = B := by
    rw [hB, dropWhile_idem]
  rw [h2]

/-! ## Stream decoding

The source has three incremental decoders:

* `getServerStreamAnalysis` (proxy text tier, service.ts lines 649-708):
  splits EACH chunk on newlines independently (no carry-over buffer) and
  processes every resulting piece, including the trailing one;
* the direct streaming branch of `getAIAnalysisStream` (lines 817-859):
  keeps a carry-over `buffer`, processes only complete lines
  (`lines.pop()` puts the remainder back into the buffer);
* `getServerVisionStreamAnalysis` (proxy vision tier, lines 1262-1332):
  like the proxy text tier, no carry-over buffer.

A decoder is a per-line step `σ → Str → σ × Bool`; the Bool is the `break`
of the source loops, which exits the per-chunk line loop only (the outer
`while` over chunks continues).  Decoders are parameterised by the line
parser standing for `JSON.parse` restricted to the event grammar. -/

def runLines {σ : Type} (step : σ → Str → σ × Bool) : List Str → σ → σ
  | [], st => st
  | l :: ls, st =>
    match step st l with
    | (st2, true) => st2
    | (st2, false) => runLines step ls st2

/-- Decoder state with a carry-over buffer (direct streaming tier). -/
structure BufSt (σ : Type) where
  buffer : Str
  inner : σ
  deriving Repr, DecidableEq

/-- One chunk of the buffered decoder: append the chunk to the buffer, split,
process the complete lines, keep the remainder (`buffer = lines.pop()`). -/
def feedChunkBuf {σ : Type} (step : σ → Str → σ × Bool) (cst : BufSt σ)
    (chunk : Str) : BufSt σ :=
  let parts := splitLinesP (cst.buffer ++ chunk)
  { buffer := parts.2, inner := runLines step parts.1 cst.inner }

def decodeChunksBuf {σ : Type} (step : σ → Str → σ × Bool) (init : σ)
    (chunks : List Str) : BufSt σ :=
  chunks.foldl (feedChunkBuf step) ⟨[], init⟩

/-- One chunk of the UNBUFFERED decoders (proxy tiers): split the chunk alone
and process every piece, the trailing remainder included
(`const lines = chunkStr.split('\n'); for (const line of lines) ...`). -/
def feedChunkNoBuf {σ : Type} (step : σ → Str → σ × Bool) (st : σ)
    (chunk : Str) : σ :=
  runLines step ((splitLinesP chunk).1 ++ [(splitLinesP chunk).2]) st

def decodeChunksNoBuf {σ : Type} (step : σ → Str → σ × Bool) (init : σ)
    (chunks : List Str) : σ :=
  chunks.foldl (feedChunkNoBuf step) init

/-- Proxy text-stream event record: `{content}` / `{done:true}` / `{error}`. -/
structure ProxyRec where
  content : Option Str
  done : Bool
  error : Option Str
  deriving Repr, DecidableEq

/-- Direct provider streaming record: the cumulative
`candidates[0].content.parts[0].text` and the presence of
`candidates[0].finishReason`. -/
structure DirectRec where
  text : Option Str
  finish : Bool
  deriving Repr, DecidableEq

/-- Proxy vision-stream event record: `{text}` / `{finalText}` /
`{finishReason | status:"completed"}` / `{error}`. -/
structure VisionRec where
  text : Option Str
  finalText : Option Str
  error : Option Str
  completed : Bool
  deriving Repr, DecidableEq

/-- Accumulator state shared by the proxy decoders: the accumulated text and
the sequence of arguments passed to the `onUpdate` sink so far. -/
structure AccSt where
  acc : Str
  calls : List Str
  deriving Repr, DecidableEq

def dataMarker : Str := "data: ".data

/-- `accumulatedText += delta; onUpdate(accumulatedText)`: append a delta and
record the sink call. -/
def accPush (st : AccSt) (c : Str) : AccSt :=
  { acc := st.acc ++ c, calls := st.calls ++ [st.acc ++ c] }

/-- The `finalText` handling of the vision decoder: append the terminal
correction only when the accumulation does not already contain it, and invoke
the sink with the (possibly unchanged) accumulation either way. -/
def accFinalPush (st : AccSt) (f : Str) : AccSt :=
  let a2 := if strContains st.acc f then st.acc else st.acc ++ f
  { acc := a2, calls := st.calls ++ [a2] }

def doneSentinel : Str := "[DONE]".data

/-- Per-line step of `getServerStreamAnalysis` (lines 663-703).  Notes kept
from the source: the `'data: '` test and `slice(6)` act on the TRIMMED line;
a thrown backend-error escalation is caught by the surrounding
`catch (parseError)` of the same loop body, so an `{error}` record is in fact
skipped like a malformed line; an empty `content` string is falsy and
therefore ignored. -/
def proxyLineStep (parse : Str → Option ProxyRec) (st : AccSt) (line : Str) :
    AccSt × Bool :=
  let t := trimChars line
  if dataMarker.isPrefixOf t then
    let payload := t.drop 6
    if payload = doneSentinel then (st, true)
    else
      match parse payload with
      | none => (st, false)
      | some r =>
        if r.done then (st, true)
        else if r.error.isSome then (st, false)
        else
          match r.content with
          | some c =>
            if c = [] then (st, false) else (accPush st c, false)
          | none => (st, false)
  else (st, false)

/-- State of the direct streaming decoder: the latest cumulative text
(`fullText`, REPLACED by each record) and the sink-call sequence. -/
structure DirSt where
  full : Str
  calls : List Str
  deriving Repr, DecidableEq

/-- Per-line step of the direct streaming branch of `getAIAnalysisStream`
(lines 833-858): blank lines are skipped, a record's `text` REPLACES
`fullText` (an empty text is falsy and ignored), and a `finishReason`
breaks out of the per-chunk line loop. -/
def directLineStep (parse : Str → Option DirectRec) (st : DirSt) (line : Str) :
    DirSt × Bool :=
  let t := trimChars line
  if t = [] then (st, false)
  else
    match parse t with
    | none => (st, false)
    | some r =>
      let st2 :=
        match r.text with
        | some tx => if tx = [] then st else { full := tx, calls := st.calls ++ [tx] }
        | none => st
      (st2, r.finish)

/-- Per-line step of `getServerVisionStreamAnalysis` (lines 1275-1327).
Order per the source: completion check, error (swallowed by the parse catch),
additive `text`, then `finalText`, which is appended ONLY if the accumulation
does not already `includes` it; the sink is invoked either way. -/
def visionLineStep (parse : Str → Option VisionRec) (st : AccSt) (line : Str) :
    AccSt × Bool :=
  let t := trimChars line
  if dataMarker.isPrefixOf t then
    let payload := t.drop 6
    if payload = doneSentinel then (st, true)
    else
      match parse payload with
      | none => (st, false)
      | some r =>
        if r.completed then (st, true)
        else if r.error.isSome then (st, false)
        else
          let st1 :=
            match r.text with
            | some tx => if tx = [] then st else accPush st tx
            | none => st
          match r.finalText with
          | some f =>
            if f = [] then (st1, false) else (accFinalPush st1 f, false)
          | none => (st1, false)
  else (st, false)

/-- The return of `getServerStreamAnalysis` (lines 710-714): an empty or
whitespace-only accumulation throws, otherwise the trimmed accumulation is
returned. -/
def proxyStreamResultOf (st : AccSt) : Except String Str :=
  if trimChars st.acc = [] then Except.error "后端服务器未返回有效数据"
  else Except.ok (trimChars st.acc)

/-- Whole proxy text-stream decode: result together with the sink-call
sequence. -/
def getServerStreamAnalysisModel (parse : Str → Option ProxyRec)
    (chunks : List Str) : Except String Str × List Str :=
  let st := decodeChunksNoBuf (proxyLineStep parse) ⟨[], []⟩ chunks
  (proxyStreamResultOf st, st.calls)

/-- Whole direct streaming decode (lines 821-868: buffered, trailing buffer
discarded; empty final text throws and triggers the standard fallback). -/
def directStreamDecode (parse : Str → Option DirectRec) (chunks : List Str) :
    BufSt DirSt :=
  decodeChunksBuf (directLineStep parse) ⟨[], []⟩ chunks

def directStreamResultOf (st : DirSt) : Except String Str :=
  if trimChars st.full = [] then Except.error "流式API未返回有效数据"
  else Except.ok (trimChars st.full)

/-- The return of `getServerVisionStreamAnalysis` (lines 1334-1338). -/
def visionStreamResultOf (st : AccSt) : Except String Str :=
  if trimChars st.acc = [] then Except.error "后端服务器未返回有效的手相分析数据"
  else Except.ok (trimChars st.acc)

/-- Whole proxy vision-stream decode. -/
def getServerVisionStreamAnalysisModel (parse : Str → Option VisionRec)
    (chunks : List Str) : Except String Str × List Str :=
  let st := decodeChunksNoBuf (visionLineStep parse) ⟨[], []⟩ chunks
  (visionStreamResultOf st, st.calls)

/-! ## Chunk-boundary analysis

The `break` of the source loops only leaves the per-chunk line loop, so two
chunkings of the same stream can disagree when a breaking line is followed by
further complete lines.  When no complete line except possibly the last one
breaks, the buffered decoder is independent of the chunking. -/

theorem runLines_append {σ : Type} (step : σ → Str → σ × Bool)
    (ls₁ ls₂ : List Str) (st : σ)
    (h : ∀ l ∈ ls₁, ∀ st' : σ, (step st' l).2 = false) :
    runLines step (ls₁ ++ ls₂) st = runLines step ls₂ (runLines step ls₁ st) := by
  induction ls₁ generalizing st with
  | nil => rfl
  | cons l ls ih =>
    have hl : (step st l).2 = false := h l (by simp) st
    simp only [List.cons_append, runLines]
    cases hs : step st l with
    | mk st2 b =>
      have hb : b = false := by rw [hs] at hl; exact hl
      subst hb
      exact ih st2 (fun x hx st' => h x (List.mem_cons_of_mem _ hx) st')

theorem feedChunkBuf_merge {σ : Type} (step : σ → Str → σ × Bool)
    (cst : BufSt σ) (a b : Str)
    (hcase : (∀ l ∈ (splitLinesP (cst.buffer ++ a)).1, ∀ st' : σ,
        (step st' l).2 = false) ∨ '\n' ∉ b) :
    feedChunkBuf step (feedChunkBuf step cst a) b =
      feedChunkBuf step cst (a ++ b) := by
  obtain ⟨buf, st⟩ := cst
  simp only [feedChunkBuf]
  have hassoc : buf ++ (a ++ b) = (buf ++ a) ++ b := (List.append_assoc buf a b).symm
  rw [hassoc, splitLinesP_append (buf ++ a) b]
  rcases hcase with hfree | hnl
  · exact congrArg (BufSt.mk _) (runLines_append step _ _ st hfree).symm
  · have hrem := splitLinesP_rem_no_newline (buf ++ a)
    have hnone : ∀ c ∈ (splitLinesP (buf ++ a)).2 ++ b, c ≠ '\n' := by
      intro c hc
      rcases List.mem_append.mp hc with h1 | h2
      · exact hrem c h1
      · intro heq; exact hnl (heq ▸ h2)
    rw [splitLinesP_no_newline _ hnone]
    show BufSt.mk _ (runLines step [] _) = BufSt.mk _ (runLines step (_ ++ []) st)
    rw [List.append_nil]
    rfl

theorem decodeChunksBuf_single {σ : Type} (step : σ → Str → σ × Bool)
    (init : σ) (s : Str) :
    decodeChunksBuf step init [s] = feedChunkBuf step ⟨[], init⟩ s := rfl

/-- The buffered decoder is chunking-independent whenever no complete line of
the stream except possibly the final one triggers the loop `break`. -/
theorem decodeChunksBuf_chunk_indep {σ : Type} (step : σ → Str → σ × Bool)
    (brkOf : Str → Bool)
    (hstep : ∀ (st : σ) (l : Str), (step st l).2 = brkOf l)
    (init : σ) (cs : List Str)
    (hbrk : ∀ l ∈ ((splitLinesP cs.flatten).1).dropLast, brkOf l = false) :
    decodeChunksBuf step init cs = decodeChunksBuf step init [cs.flatten] := by
  induction cs using List.reverseRecOn with
  | nil => rfl
  | append_singleton cs c ih =>
    have hflat : (cs ++ [c]).flatten = cs.flatten ++ c := by
      simp
    have hsplit := splitLinesP_append cs.flatten c
    by_cases hnl : '\n' ∈ c
    · have hne : (splitLinesP ((splitLinesP cs.flatten).2 ++ c)).1 ≠ [] :=
        splitLinesP_mem_newline _ (by exact List.mem_append.mpr (Or.inr hnl))
      have hfull1 : (splitLinesP (cs.flatten ++ c)).1 =
          (splitLinesP cs.flatten).1 ++
            (splitLinesP ((splitLinesP cs.flatten).2 ++ c)).1 := by
        rw [hsplit]
      have hmemfull : ∀ l ∈ (splitLinesP cs.flatten).1,
          l ∈ ((splitLinesP (cs.flatten ++ c)).1).dropLast := by
        intro l hl
        rw [hfull1, List.dropLast_append_of_ne_nil _ hne]
        exact List.mem_append.mpr (Or.inl hl)
      have hfree : ∀ l ∈ (splitLinesP cs.flatten).1, ∀ st' : σ,
          (step st' l).2 = false := by
        intro l hl st'
        rw [hstep]
        exact hbrk l (by rw [hflat] at hbrk ⊢; exact hmemfull l hl)
      have hprev : ∀ l ∈ ((splitLinesP cs.flatten).1).dropLast, brkOf l = false := by
        intro l hl
        have := hfree l (List.dropLast_subset _ hl) init
        rw [hstep] at this
        exact this
      calc decodeChunksBuf step init (cs ++ [c])
          = feedChunkBuf step (decodeChunksBuf step init cs) c := by
            simp [decodeChunksBuf, List.foldl_append]
        _ = feedChunkBuf step (feedChunkBuf step ⟨[], init⟩ cs.flatten) c := by
            rw [ih hprev, decodeChunksBuf_single]
        _ = feedChunkBuf step ⟨[], init⟩ (cs.flatten ++ c) := by
            apply feedChunkBuf_merge
            left
            simpa using hfree
        _ = decodeChunksBuf step init [(cs ++ [c]).flatten] := by
            rw [hflat]; rfl
    · have hbone : ∀ x ∈ (splitLinesP ((splitLinesP cs.flatten).2 ++ c)).1 ++
          [(splitLinesP ((splitLinesP cs.flatten).2 ++ c)).2], True := fun _ _ => trivial
      have hnonec : ∀ x ∈ (splitLinesP cs.flatten).2 ++ c, x ≠ '\n' := by
        intro x hx
        rcases List.mem_append.mp hx with h1 | h2
        · exact splitLinesP_rem_no_newline _ x h1
        · intro hEq; exact hnl (hEq ▸ h2)
      have hB : splitLinesP ((splitLinesP cs.flatten).2 ++ c) =
          ([], (splitLinesP cs.flatten).2 ++ c) := splitLinesP_no_newline _ hnonec
      have hfull1 : (splitLinesP (cs.flatten ++ c)).1 = (splitLinesP cs.flatten).1 := by
        rw [hsplit, hB]
        simp
      have hprev : ∀ l ∈ ((splitLinesP cs.flatten).1).dropLast, brkOf l = false := by
        intro l hl
        apply hbrk
        rw [hflat, hfull1]
        exact hl
      calc decodeChunksBuf step init (cs ++ [c])
          = feedChunkBuf step (decodeChunksBuf step init cs) c := by
            simp [decodeChunksBuf, List.foldl_append]
        _ = feedChunkBuf step (feedChunkBuf step ⟨[], init⟩ cs.flatten) c := by
            rw [ih hprev, decodeChunksBuf_single]
        _ = feedChunkBuf step ⟨[], init⟩ (cs.flatten ++ c) := by
            apply feedChunkBuf_merge
            right
            exact hnl
        _ = decodeChunksBuf step init [(cs ++ [c]).flatten] := by
            rw [hflat]; rfl

/-- The break decision of the direct streaming loop depends only on the line
(presence of `candidates[0].finishReason`), never on the decoder state. -/
def directBrkOf (parse : Str → Option DirectRec) (l : Str) : Bool :=
  let t := trimChars l
  if t = [] then false
  else
    match parse t with
    | none => false
    | some r => r.finish

theorem directLineStep_snd (parse : Str → Option DirectRec) (st : DirSt)
    (l : Str) : (directLineStep parse st l).2 = directBrkOf parse l := by
  unfold directLineStep directBrkOf
  by_cases h : trimChars l = []
  · simp [h]
  · simp only [h, if_false]
    cases parse (trimChars l) with
    | none => rfl
    | some r =>
      cases hr : r.text with
      | none => rfl
      | some tx =>
        by_cases htx : tx = [] <;> simp [hr, htx]

/-- The break decision of the proxy stream loop likewise depends only on the
line: the `[DONE]` sentinel or a parsed record with `done: true`. -/
def proxyBrkOf (parse : Str → Option ProxyRec) (l : Str) : Bool :=
  let t := trimChars l
  if dataMarker.isPrefixOf t then
    let payload := t.drop 6
    if payload = doneSentinel then true
    else
      match parse payload with
      | none => false
      | some r => r.done
  else false

theorem proxyLineStep_snd (parse : Str → Option ProxyRec) (st : AccSt)
    (l : Str) : (proxyLineStep parse st l).2 = proxyBrkOf parse l := by
  unfold proxyLineStep proxyBrkOf
  by_cases h1 : List.isPrefixOf dataMarker (trimChars l) = true
  · simp only [h1, if_true]
    by_cases h2 : List.drop 6 (trimChars l) = doneSentinel
    · simp [h2]
    · simp only [h2, if_false]
      cases parse (List.drop 6 (trimChars l)) with
      | none => rfl
      | some r =>
        by_cases hd : r.done = true
        · simp [hd]
        · by_cases he : r.error.isSome = true
          · simp [hd, he]
          · cases hc : r.content with
            | none => simp [hd, he, hc]
            | some c => by_cases hce : c = [] <;> simp [hd, he, hc, hce]
  · simp [h1]

/-! ## Concrete wire-format parsers

`JSON.parse` is a platform builtin (not part of this repository), so the
decoders above are parameterised by the line parser.  The concrete instances
below implement exactly the restriction of JSON parsing to the event grammar
of the external interfaces: one JSON object per line in one of the literal
shapes used on the wire, with a quote-and-backslash-free string payload.  A
line that is not of one of these shapes (in particular any fragment of such a
line cut at a chunk boundary) fails to parse, exactly as `JSON.parse` throws
on a truncated JSON text. -/

def extractBetween (pre suf s : Str) : Option Str :=
  if pre.isPrefixOf s then
    let r := s.drop pre.length
    if suf.isSuffixOf r then some (r.take (r.length - suf.length)) else none
  else none

/-- A string payload with no quote and no backslash: on such payloads JSON
serialisation is the identity, so the concrete parsers only accept them. -/
def jsonPlainStr (l : Str) : Bool :=
  l.all (fun c => !(c = '"' || c = '\\'))

def proxyContentPre : Str := "\x7b\"content\":\"".data
def proxyErrorPre : Str := "\x7b\"error\":\"".data
def quoteBracePost : Str := "\"\x7d".data
def proxyDoneLit : Str := "\x7b\"done\":true\x7d".data

def parseProxyConcrete (s : Str) : Option ProxyRec :=
  if s = proxyDoneLit then some ⟨none, true, none⟩
  else
    match extractBetween proxyContentPre quoteBracePost s with
    | some mid => if jsonPlainStr mid then some ⟨some mid, false, none⟩ else none
    | none =>
      match extractBetween proxyErrorPre quoteBracePost s with
      | some mid => if jsonPlainStr mid then some ⟨none, false, some mid⟩ else none
      | none => none

def directTextPre : Str :=
  "\x7b\"candidates\":[\x7b\"content\":\x7b\"parts\":[\x7b\"text\":\"".data
def directTextPost : Str := "\"\x7d]\x7d\x7d]\x7d".data
def directFinishLit : Str :=
  "\x7b\"candidates\":[\x7b\"finishReason\":\"STOP\"\x7d]\x7d".data

def parseDirectConcrete (s : Str) : Option DirectRec :=
  if s = directFinishLit then some ⟨none, true⟩
  else
    match extractBetween directTextPre directTextPost s with
    | some mid => if jsonPlainStr mid then some ⟨some mid, false⟩ else none
    | none => none

def visionTextPre : Str := "\x7b\"text\":\"".data
def visionFinalPre : Str := "\x7b\"finalText\":\"".data
def visionDoneLit : Str := "\x7b\"status\":\"completed\"\x7d".data

def parseVisionConcrete (s : Str) : Option VisionRec :=
  if s = visionDoneLit then some ⟨none, none, none, true⟩
  else
    match extractBetween visionTextPre quoteBracePost s with
    | some mid =>
      if jsonPlainStr mid then some ⟨some mid, none, none, false⟩ else none
    | none =>
      match extractBetween visionFinalPre quoteBracePost s with
      | some mid =>
        if jsonPlainStr mid then some ⟨none, some mid, none, false⟩ else none
      | none => none

/-- A well-formed proxy content event line, as emitted by the proxy. -/
def mkProxyContentLine (c : Str) : Str :=
  dataMarker ++ proxyContentPre ++ c ++ quoteBracePost

/-- A well-formed direct streaming record line. -/
def mkDirectTextLine (t : Str) : Str := directTextPre ++ t ++ directTextPost

deriving instance DecidableEq for Except

/-! ## Accumulation discipline (C4) -/

/-- `l` is a proxy stream line whose trimmed form is a data line carrying a
non-empty `content` delta `c` under the parser. -/
def proxyContentLineB (parse : Str → Option ProxyRec) (l c : Str) : Bool :=
  decide (dataMarker.isPrefixOf (trimChars l) = true ∧
    (trimChars l).drop 6 ≠ doneSentinel ∧
    parse ((trimChars l).drop 6) = some ⟨some c, false, none⟩ ∧ c ≠ [])

def proxyLinesMatchB (parse : Str → Option ProxyRec) :
    List Str → List Str → Bool
  | [], [] => true
  | l :: ls, c :: cs => proxyContentLineB parse l c && proxyLinesMatchB parse ls cs
  | _, _ => false

/-- `l` is a direct stream line whose trimmed form parses to a record carrying
the non-empty cumulative text `t` and no finish reason. -/
def directTextLineB (parse : Str → Option DirectRec) (l t : Str) : Bool :=
  decide (trimChars l ≠ [] ∧ parse (trimChars l) = some ⟨some t, false⟩ ∧ t ≠ [])

def directLinesMatchB (parse : Str → Option DirectRec) :
    List Str → List Str → Bool
  | [], [] => true
  | l :: ls, t :: ts => directTextLineB parse l t && directLinesMatchB parse ls ts
  | _, _ => false

/-- Running prefixes of accumulated content deltas: the successive values of
`accumulatedText` as each delta is appended. -/
def accPrefixes (acc : Str) : List Str → List Str
  | [] => []
  | c :: cs => (acc ++ c) :: accPrefixes (acc ++ c) cs

theorem proxy_runLines_content (parse : Str → Option ProxyRec)
    (ls cs : List Str) (st : AccSt)
    (h : proxyLinesMatchB parse ls cs = true) :
    runLines (proxyLineStep parse) ls st =
      ⟨st.acc ++ cs.flatten, st.calls ++ accPrefixes st.acc cs⟩ := by
  induction ls generalizing cs st with
  | nil =>
    cases cs with
    | nil => simp [runLines, accPrefixes]
    | cons c cs' => simp [proxyLinesMatchB] at h
  | cons l ls' ih =>
    cases cs with
    | nil => simp [proxyLinesMatchB] at h
    | cons c cs' =>
      simp only [proxyLinesMatchB, Bool.and_eq_true] at h
      obtain ⟨h1, h2⟩ := h
      have hl := of_decide_eq_true h1
      obtain ⟨hpref, hne, hparse, hc⟩ := hl
      have hstep : proxyLineStep parse st l =
          (⟨st.acc ++ c, st.calls ++ [st.acc ++ c]⟩, false) := by
        simp [proxyLineStep, accPush, hpref, hne, hparse, hc]
      simp only [runLines, hstep]
      rw [ih cs' _ h2]
      simp [accPrefixes, List.append_assoc]

theorem direct_runLines_text (parse : Str → Option DirectRec)
    (ls ts : List Str) (st : DirSt)
    (h : directLinesMatchB parse ls ts = true) :
    runLines (directLineStep parse) ls st =
      ⟨ts.getLastD st.full, st.calls ++ ts⟩ := by
  induction ls generalizing ts st with
  | nil =>
    cases ts with
    | nil => simp [runLines]
    | cons t ts' => simp [directLinesMatchB] at h
  | cons l ls' ih =>
    cases ts with
    | nil => simp [directLinesMatchB] at h
    | cons t ts' =>
      simp only [directLinesMatchB, Bool.and_eq_true] at h
      obtain ⟨h1, h2⟩ := h
      have hl := of_decide_eq_true h1
      obtain ⟨hne, hparse, ht⟩ := hl
      have hstep : directLineStep parse st l =
          (⟨t, st.calls ++ [t]⟩, false) := by
        simp [directLineStep, hne, hparse, ht]
      simp only [runLines, hstep]
      rw [ih ts' _ h2, List.getLastD_cons]
      simp [List.append_assoc]

/-! ## Sink-call invariants (C5) -/

theorem runLines_preserve {σ : Type} (step : σ → Str → σ × Bool) (P : σ → Prop)
    (hstep : ∀ st l, P st → P (step st l).1) :
    ∀ (ls : List Str) (st : σ), P st → P (runLines step ls st) := by
  intro ls
  induction ls with
  | nil => intro st h; exact h
  | cons l ls' ih =>
    intro st h
    simp only [runLines]
    cases hs : step st l with
    | mk st2 b =>
      have h2 : P st2 := by
        have := hstep st l h
        rw [hs] at this
        exact this
      cases b with
      | true => exact h2
      | false => exact ih st2 h2

theorem decodeChunksNoBuf_preserve {σ : Type} (step : σ → Str → σ × Bool)
    (P : σ → Prop) (hstep : ∀ st l, P st → P (step st l).1)
    (chunks : List Str) (init : σ) (h : P init) :
    P (decodeChunksNoBuf step init chunks) := by
  induction chunks generalizing init with
  | nil => exact h
  | cons c cs ih =>
    exact ih _ (runLines_preserve step P hstep _ init h)

theorem decodeChunksBuf_preserve {σ : Type} (step : σ → Str → σ × Bool)
    (P : σ → Prop) (hstep : ∀ st l, P st → P (step st l).1)
    (chunks : List Str) (init : σ) (h : P init) :
    P (decodeChunksBuf step init chunks).inner := by
  suffices hgen : ∀ (cst : BufSt σ), P cst.inner →
      P (chunks.foldl (feedChunkBuf step) cst).inner by
    exact hgen ⟨[], init⟩ h
  induction chunks with
  | nil => intro cst hc; exact hc
  | cons c cs ih =>
    intro cst hc
    exact ih _ (runLines_preserve step P hstep _ _ hc)

/-- Invariant of the proxy/vision accumulator: the sink-call sequence is a
chain of extensions, it is empty only while the accumulation is, and its last
element is the current accumulation. -/
def AccInv (st : AccSt) : Prop :=
  List.Chain' PrefixOfP st.calls ∧ (st.calls = [] → st.acc = []) ∧
    (st.calls ≠ [] → st.calls.getLastD [] = st.acc)

theorem accInv_push (st : AccSt) (a2 : Str) (hinv : AccInv st)
    (hpref : PrefixOfP st.acc a2) :
    AccInv ⟨a2, st.calls ++ [a2]⟩ := by
  obtain ⟨hchain, hnil, hlast⟩ := hinv
  refine ⟨?_, ?_, ?_⟩
  · rw [List.chain'_append]
    refine ⟨hchain, List.chain'_singleton a2, ?_⟩
    intro x hx y hy
    simp only [List.head?_cons, Option.mem_def, Option.some.injEq] at hy
    subst hy
    cases hc : st.calls with
    | nil => rw [hc] at hx; simp at hx
    | cons z zs =>
      have hlast' := hlast (by rw [hc]; simp)
      have hx' : x = st.calls.getLastD [] := by
        rw [hc] at hx ⊢
        rw [List.getLastD_eq_getLast?]
        rw [Option.mem_def] at hx
        rw [hx]
        rfl
      rw [hx', hlast']
      exact hpref
  · intro hcontra
    exact absurd hcontra (by simp)
  · intro _
    exact List.getLastD_concat _ _ _

theorem accInv_accPush (st : AccSt) (c : Str) (h : AccInv st) :
    AccInv (accPush st c) :=
  accInv_push st _ h ⟨c, rfl⟩

theorem accInv_accFinalPush (st : AccSt) (f : Str) (h : AccInv st) :
    AccInv (accFinalPush st f) := by
  unfold accFinalPush
  by_cases hc : strContains st.acc f = true
  · simpa [hc] using accInv_push st st.acc h ⟨[], by simp⟩
  · simpa [hc] using accInv_push st (st.acc ++ f) h ⟨f, rfl⟩

theorem proxyLineStep_preserves_inv (parse : Str → Option ProxyRec)
    (st : AccSt) (l : Str) (h : AccInv st) :
    AccInv (proxyLineStep parse st l).1 := by
  simp only [proxyLineStep]
  split
  · split
    · exact h
    · split
      · exact h
      · split
        · exact h
        · split
          · exact h
          · split
            · split
              · exact h
              · exact accInv_accPush st _ h
            · exact h
  · exact h

theorem visionLineStep_preserves_inv (parse : Str → Option VisionRec)
    (st : AccSt) (l : Str) (h : AccInv st) :
    AccInv (visionLineStep parse st l).1 := by
  have hst1 : ∀ r : VisionRec,
      AccInv (match r.text with
        | some tx => if tx = [] then st else accPush st tx
        | none => st) := by
    intro r
    cases r.text with
    | none => exact h
    | some tx =>
      by_cases htx : tx = []
      · simpa [htx] using h
      · simpa [htx] using accInv_accPush st tx h
  simp only [visionLineStep]
  split
  · split
    · exact h
    · split
      · exact h
      · split
        · exact h
        · split
          · exact h
          · split
            · split
              · exact hst1 _
              · exact accInv_accFinalPush _ _ (hst1 _)
            · exact hst1 _
  · exact h

/-- Invariant of the direct streaming decoder: the last sink call (if any)
carries exactly the current `fullText`. -/
def DirInv (st : DirSt) : Prop :=
  (st.calls = [] → st.full = []) ∧
    (st.calls ≠ [] → st.calls.getLastD [] = st.full)

theorem directLineStep_preserves_inv (parse : Str → Option DirectRec)
    (st : DirSt) (l : Str) (h : DirInv st) :
    DirInv (directLineStep parse st l).1 := by
  simp only [directLineStep]
  split
  · exact h
  · split
    · exact h
    · split
      · split
        · exact h
        · refine ⟨fun hcontra => absurd hcontra (by simp), fun _ => ?_⟩
          exact List.getLastD_concat _ _ _
      · exact h

/-! ## The typewriter simulator (C3, C5)

`getServerAnalysis` (lines 591-611), `getServerVisionAnalysis`
(lines 1436-1457) and `getPalmistryAnalysisStream` (lines 1526-1547) replay a
standard-tier result through the same loop: chunks of 3 characters are
appended to `currentText`, the sink is invoked after each append, and after
the loop the sink is invoked once more with the complete result. -/

def typeGo (cur : Str) : Str → List Str
  | [] => []
  | [a] => [cur ++ [a]]
  | [a, b] => [cur ++ [a, b]]
  | a :: b :: c :: rest => (cur ++ [a, b, c]) :: typeGo (cur ++ [a, b, c]) rest

/-- The full sequence of sink calls of the simulated-streaming replay. -/
def simulateSinkCalls (result : Str) : List Str :=
  typeGo [] result ++ [result]

theorem typeGo_ne_nil (cur rest : Str) (h : rest ≠ []) :
    typeGo cur rest ≠ [] := by
  match rest with
  | [] => exact absurd rfl h
  | [a] => simp [typeGo]
  | [a, b] => simp [typeGo]
  | a :: b :: c :: r => simp [typeGo]

theorem typeGo_mem_pref (cur rest : Str) :
    ∀ x ∈ typeGo cur rest, PrefixOfP x (cur ++ rest) := by
  match rest with
  | [] => simp [typeGo]
  | [a] =>
    intro x hx
    simp only [typeGo, List.mem_singleton] at hx
    exact ⟨[], by simp [hx]⟩
  | [a, b] =>
    intro x hx
    simp only [typeGo, List.mem_singleton] at hx
    exact ⟨[], by simp [hx]⟩
  | a :: b :: c :: r =>
    intro x hx
    simp only [typeGo, List.mem_cons] at hx
    rcases hx with rfl | hx'
    · exact ⟨r, by simp⟩
    · have := typeGo_mem_pref (cur ++ [a, b, c]) r x hx'
      rcases this with ⟨t, ht⟩
      exact ⟨t, by simpa using ht⟩

theorem typeGo_last (cur rest : Str) (h : rest ≠ []) (d : Str) :
    (typeGo cur rest).getLastD d = cur ++ rest := by
  match rest with
  | [] => exact absurd rfl h
  | [a] => simp [typeGo]
  | [a, b] => simp [typeGo]
  | a :: b :: c :: r =>
    by_cases hr : r = []
    · simp [typeGo, hr]
    · have hrec := typeGo_last (cur ++ [a, b, c]) r hr (cur ++ [a, b, c])
      simp only [typeGo, List.getLastD_cons]
      rw [hrec]
      simp

theorem typeGo_chain (cur rest : Str) :
    List.Chain' PrefixOfP (cur :: typeGo cur rest) := by
  match rest with
  | [] => simp [typeGo]
  | [a] =>
    simp only [typeGo]
    exact List.chain'_pair.mpr ⟨[a], rfl⟩
  | [a, b] =>
    simp only [typeGo]
    exact List.chain'_pair.mpr ⟨[a, b], rfl⟩
  | a :: b :: c :: r =>
    simp only [typeGo]
    rw [List.chain'_cons]
    exact ⟨⟨[a, b, c], rfl⟩, typeGo_chain (cur ++ [a, b, c]) r⟩

/-! ## Transport-tier orchestration (C1, C7)

`getAIAnalysisStream` (service.ts lines 727-904) and its standard fallback
`getAIAnalysis` (lines 915-1055) are embedded as pure functions of an
environment capturing the settings snapshot and the outcome each network
interaction WOULD have (successive health-probe outcomes, successive proxy
standard-call outcomes, the direct streaming and direct standard outcomes).
The returned trace lists the transport events in order.  `ENABLE_STREAMING`
is `false` in this revision (line 22), so the proxy tier taken by both
functions is the standard call `getServerStandardAnalysis` replayed through
the typewriter simulator; its sink behaviour is covered by
`simulateSinkCalls` and does not appear in the event trace. -/

/-- One observable transport interaction of a request. -/
inductive Ev where
  | probe (ok : Bool)
  | proxyCall (outcome : Option String)
  | keyCheck (ok : Bool)
  | directStreamCall (outcome : Option String)
  | directStandardCall (outcome : Option String)
  deriving Repr, DecidableEq

/-- Environment of one request: the settings snapshot taken at call time and
the outcome of every interaction the request could attempt.  `health` and
`proxy` are consumed positionally because the source re-probes on each entry
into a service function. -/
structure World where
  masterValid : Bool
  serverConfigured : Bool
  health : List Bool
  proxy : List (Option String)
  keyValid : Bool
  directStream : Option String
  directStandard : Except String String
  deriving Repr, DecidableEq

def msgServerDownNoKey : String :=
  "后端服务器不可用，且未配置有效的Gemini API密钥。请检查服务器状态或配置API密钥。"

def msgNoKey : String := "请先在设置中配置有效的Gemini API密钥"

def msgBadMaster : String := "大师配置无效"

/-- The part of `getAIAnalysis` after its proxy branch (lines 949-1012): the
API-key check, the master check, then the direct standard call. -/
def standardRest (serverConfigured keyValid masterValid : Bool)
    (directStandard : Except String String) : Except String String × List Ev :=
  if !keyValid then
    (Except.error (if serverConfigured then msgServerDownNoKey else msgNoKey),
     [Ev.keyCheck false])
  else if !masterValid then (Except.error msgBadMaster, [Ev.keyCheck true])
  else
    match directStandard with
    | Except.ok s => (Except.ok s, [Ev.keyCheck true, Ev.directStandardCall (some s)])
    | Except.error m => (Except.error m, [Ev.keyCheck true, Ev.directStandardCall none])

/-- `getAIAnalysis` (lines 915-1055): if a server URL is configured, probe it
and, when healthy, try the proxy standard call, any failure of which is
swallowed; then fall through to the key check and the direct standard call. -/
def getAIAnalysisModel (masterValid serverConfigured keyValid : Bool)
    (health : List Bool) (proxy : List (Option String))
    (directStandard : Except String String) : Except String String × List Ev :=
  if serverConfigured then
    if health.headD false then
      match proxy.headD none with
      | some s => (Except.ok s, [Ev.probe true, Ev.proxyCall (some s)])
      | none =>
        let r := standardRest serverConfigured keyValid masterValid directStandard
        (r.1, Ev.probe true :: Ev.proxyCall none :: r.2)
    else
      let r := standardRest serverConfigured keyValid masterValid directStandard
      (r.1, Ev.probe false :: r.2)
  else standardRest serverConfigured keyValid masterValid directStandard

/-- The part of `getAIAnalysisStream` after its proxy branch (lines 767-893):
key check, the direct streaming attempt, and on its failure the single
fallback to `getAIAnalysis` (which re-reads the same settings snapshot). -/
def streamRest (w : World) (health2 : List Bool) (proxy2 : List (Option String)) :
    Except String String × List Ev :=
  if !w.keyValid then
    (Except.error (if w.serverConfigured then msgServerDownNoKey else msgNoKey),
     [Ev.keyCheck false])
  else
    match w.directStream with
    | some s => (Except.ok s, [Ev.keyCheck true, Ev.directStreamCall (some s)])
    | none =>
      let r := getAIAnalysisModel w.masterValid w.serverConfigured w.keyValid
        health2 proxy2 w.directStandard
      (r.1, Ev.keyCheck true :: Ev.directStreamCall none :: r.2)

/-- `getAIAnalysisStream` (lines 727-904): master check, then the proxy
branch (probe, proxy call, failures swallowed), then `streamRest`. -/
def getAIAnalysisStreamModel (w : World) : Except String String × List Ev :=
  if !w.masterValid then (Except.error msgBadMaster, [])
  else if w.serverConfigured then
    if w.health.headD false then
      match w.proxy.headD none with
      | some s => (Except.ok s, [Ev.probe true, Ev.proxyCall (some s)])
      | none =>
        let r := streamRest w w.health.tail w.proxy.tail
        (r.1, Ev.probe true :: Ev.proxyCall none :: r.2)
    else
      let r := streamRest w w.health.tail w.proxy
      (r.1, Ev.probe false :: r.2)
  else streamRest w w.health w.proxy

def isProxyCallEv : Ev → Bool
  | Ev.proxyCall _ => true
  | _ => false

def isProbeEv : Ev → Bool
  | Ev.probe _ => true
  | _ => false

def countProxyCalls (t : List Ev) : Nat := t.countP isProxyCallEv

def countProbes (t : List Ev) : Nat := t.countP isProbeEv

/-- A trace violates the one-way-fallback claim when a failed proxy call is
followed, later in the same request, by another proxy probe or proxy call. -/
def violatesOneWay : List Ev → Bool
  | [] => false
  | e :: rest =>
    (e = Ev.proxyCall none &&
      rest.any (fun x => isProbeEv x || isProxyCallEv x)) || violatesOneWay rest

/-! ## Response extraction and error classification (C6, C8) -/

/-- The spec's closed error taxonomy (spec sections 3 and 4.6).  Defined from
the spec's words; the source raises errors with concrete Chinese messages,
which the functions below tie to this taxonomy. -/
inductive ErrorKind where
  | NetworkUnreachable
  | Timeout
  | AuthInvalid
  | PermissionDenied
  | RateLimited
  | ServerFault
  | MalformedResponse
  | EmptyResult
  | InvalidInput
  | Unknown
  deriving Repr, DecidableEq

/-- Shape of a 2xx Gemini generate response as inspected by the source
(`data.candidates`, `candidates[0].content.parts[0].text`). -/
structure GPart where
  text : Option String
  deriving Repr, DecidableEq

structure GContent where
  parts : List GPart
  deriving Repr, DecidableEq

structure GCand where
  content : Option GContent
  deriving Repr, DecidableEq

structure GResp where
  candidates : Option (List GCand)
  deriving Repr, DecidableEq

/-- The distinct failure shapes thrown by the response-extraction code of
`getAIAnalysis` (lines 996-1009) / `getServerStandardAnalysis`
(lines 551-563): missing or empty candidate list, missing content/parts, and
missing or whitespace-only text. -/
inductive RespErr where
  | noCandidates
  | noParts
  | emptyText
  deriving Repr, DecidableEq

def trimString (s : String) : String := String.mk (trimChars s.data)

/-- Embedding of the response extraction of `getAIAnalysis` (lines 996-1012):
`!data.candidates || length 0` throws the no-candidates format error;
missing `content`/`parts` throws the no-parts format error; a missing, empty
or whitespace-only `text` throws the empty-result error; otherwise the
trimmed text is returned.  `getServerStandardAnalysis` (lines 549-566) has
the same structure with differently worded messages. -/
def extractAnalysisText (d : GResp) : Except RespErr String :=
  match d.candidates with
  | none => Except.error RespErr.noCandidates
  | some cands =>
    match cands with
    | [] => Except.error RespErr.noCandidates
    | cand :: _ =>
      match cand.content with
      | none => Except.error RespErr.noParts
      | some ct =>
        match ct.parts with
        | [] => Except.error RespErr.noParts
        | p :: _ =>
          match p.text with
          | none => Except.error RespErr.emptyText
          | some t =>
            if trimString t = "" then Except.error RespErr.emptyText
            else Except.ok (trimString t)

/-- Modelled from the spec: the spec's section 4.6 assigns `MalformedResponse`
to a 2xx body lacking the expected candidate/text field and `EmptyResult` to a
2xx body whose candidate text is empty or whitespace.  The source's
no-candidates and no-parts throws both carry a "数据格式错误" (data format
error) message, the empty-text throw carries "分析结果为空" (result empty). -/
def respErrKind : RespErr → ErrorKind
  | RespErr.noCandidates => ErrorKind.MalformedResponse
  | RespErr.noParts => ErrorKind.MalformedResponse
  | RespErr.emptyText => ErrorKind.EmptyResult

/-- Shape of a caught request error as the classifiers inspect it:
`axios.isAxiosError(e)`, `e.response` (status and optional provider detail
`error.message`), `e.request`, and `e.code === 'ECONNABORTED'`. -/
structure RawError where
  isAxiosErr : Bool
  response : Option (Nat × Option String)
  request : Bool
  codeTimeout : Bool
  deriving Repr, DecidableEq

/-- The classified outcomes of the two catch blocks, one constructor per
distinct throw site. -/
inductive ClassifiedErr where
  | invalidInput (detail : String)
  | authInvalid
  | permissionDenied
  | payloadTooLarge
  | rateLimited
  | serverFault
  | httpOther (status : Nat) (detail : String)
  | networkUnreachable
  | timeout
  | rethrown
  deriving Repr, DecidableEq

/-- Modelled from the spec: section 4.6 names the kind each throw site of the
catch blocks realises; `httpOther` is the catch-all default branch and
`rethrown` re-raises the original error, both falling under `Unknown`. -/
def classifiedKind : ClassifiedErr → ErrorKind
  | ClassifiedErr.invalidInput _ => ErrorKind.InvalidInput
  | ClassifiedErr.authInvalid => ErrorKind.AuthInvalid
  | ClassifiedErr.permissionDenied => ErrorKind.PermissionDenied
  | ClassifiedErr.payloadTooLarge => ErrorKind.InvalidInput
  | ClassifiedErr.rateLimited => ErrorKind.RateLimited
  | ClassifiedErr.serverFault => ErrorKind.ServerFault
  | ClassifiedErr.httpOther _ _ => ErrorKind.Unknown
  | ClassifiedErr.networkUnreachable => ErrorKind.NetworkUnreachable
  | ClassifiedErr.timeout => ErrorKind.Timeout
  | ClassifiedErr.rethrown => ErrorKind.Unknown

/-- The catch block of `getAIAnalysis` (lines 1017-1046): statuses 400, 401,
403, 429 and 500 have dedicated cases — there is NO 413 case here — and every
other status falls to the default branch; an axios error with a request but
no response is the network failure; the timeout code is only examined
afterwards. -/
def classifyTextError (e : RawError) : ClassifiedErr :=
  if e.isAxiosErr then
    match e.response with
    | some (status, detail) =>
      if status = 400 then ClassifiedErr.invalidInput (detail.getD "请求参数有误")
      else if status = 401 then ClassifiedErr.authInvalid
      else if status = 403 then ClassifiedErr.permissionDenied
      else if status = 429 then ClassifiedErr.rateLimited
      else if status = 500 then ClassifiedErr.serverFault
      else ClassifiedErr.httpOther status (detail.getD "未知错误")
    | none =>
      if e.request then ClassifiedErr.networkUnreachable
      else if e.codeTimeout then ClassifiedErr.timeout
      else ClassifiedErr.rethrown
  else if e.codeTimeout then ClassifiedErr.timeout
  else ClassifiedErr.rethrown

/-- The catch block of `getPalmistryAnalysis` (lines 1171-1202): same shape,
with an additional 413 case (oversized image payload). -/
def classifyVisionError (e : RawError) : ClassifiedErr :=
  if e.isAxiosErr then
    match e.response with
    | some (status, detail) =>
      if status = 400 then
        ClassifiedErr.invalidInput (detail.getD "请求参数有误，请检查图片格式和大小")
      else if status = 401 then ClassifiedErr.authInvalid
      else if status = 403 then ClassifiedErr.permissionDenied
      else if status = 413 then ClassifiedErr.payloadTooLarge
      else if status = 429 then ClassifiedErr.rateLimited
      else if status = 500 then ClassifiedErr.serverFault
      else ClassifiedErr.httpOther status (detail.getD "未知错误")
    | none =>
      if e.request then ClassifiedErr.networkUnreachable
      else if e.codeTimeout then ClassifiedErr.timeout
      else ClassifiedErr.rethrown
  else if e.codeTimeout then ClassifiedErr.timeout
  else ClassifiedErr.rethrown

/-! ## Prompt assembly (C9)

`buildPrompt` (service.ts lines 150-190) together with
`getGameSpecificPrompt` (lines 211-248) and the per-game template functions
(lines 255-487).  `JSON.stringify` of the payload is a platform builtin; the
payload is therefore carried as its serialised form (`DivData.obj` for an
object payload, `DivData.prim` for the `String(...)` branch). -/

def DEFAULT_WORD_LIMIT : Nat := 1200

def liuYaoTemplate : String :=
  "请按照以下格式解读用户的六爻卦象（控制在" ++ toString DEFAULT_WORD_LIMIT ++ "字以内）：\n\n## 🔮 六爻卦象解读\n\n### 1. 卦象整体解读\n- **本卦象征**：分析本卦的含义和象征\n- **整体指导**：解释卦象对当前问题的整体指导\n- **现状分析**：描述当前状况和面临的挑战或机遇\n\n### 2. 变爻解读（如有变爻）\n- **爻辞分析**：逐一分析每个变爻的爻辞和象辞\n- **变爻含义**：解释变爻的具体含义和预示\n- **变卦意义**：分析变卦的意义和转化方向\n\n### 3. 综合建议\n- **行动指南**：基于卦象给出具体的行动建议\n- **时机选择**：提供时机选择的指导\n- **注意事项**：给出注意事项和应对策略\n\n### 4. 总结\n- **核心要点**：简明扼要地总结核心要点\n- **指导方向**：给出最终的指导方向\n\n**注意事项**：\n- 必须使用Markdown格式输出\n- 使用合适的标题层级（##、###、####）\n- 仅在关键结论和核心要点处谨慎使用**粗体**标记，避免过度使用\n- 使用项目符号和编号列表组织内容\n- 语言要体现你的风格特色，分析要深入透彻，建议要实用可行\n- 回复需控制在" ++ toString DEFAULT_WORD_LIMIT ++ "字以内，重点突出，避免冗余"

def qiMenTemplate : String :=
  "请详细分析奇门遁甲盘局（控制在" ++ toString DEFAULT_WORD_LIMIT ++ "字以内）：\n\n## ⚡ 奇门遁甲盘局分析\n\n### 1. 盘局分析\n- **整体格局**：分析当前奇门盘的整体格局\n- **天时地利**：解读天时地利人和的配合情况\n- **吉凶能量**：判断吉凶格局和能量分布\n\n### 2. 用神分析\n- **宫位状态**：确定用神宫位和状态\n- **环境关系**：分析用神与周围环境的关系\n- **旺衰趋势**：判断用神的旺衰和发展趋势\n\n### 3. 时机选择\n- **最佳时机**：分析最佳行动时机\n- **策略建议**：提供策略建议和注意事项\n- **进退之道**：给出进退之道\n\n### 4. 综合指导\n- **问题建议**：结合具体问题给出建议\n- **行动方案**：提供实际的行动方案\n\n**注意事项**：\n- 必须使用Markdown格式输出\n- 使用合适的标题层级（##、###、####）\n- 仅在关键结论和核心要点处谨慎使用**粗体**标记，避免过度使用\n- 使用项目符号和编号列表组织内容\n- 回复需控制在" ++ toString DEFAULT_WORD_LIMIT ++ "字以内，重点突出，避免冗余"

def zhouGongTemplate : String :=
  "请按照以下格式解读用户的梦境（控制在" ++ toString DEFAULT_WORD_LIMIT ++ "字以内）：\n\n## 🌙 周公解梦分析\n\n### 1. 梦境整体解读\n- **梦境主题**：识别梦境的核心主题和象征意义\n- **情感基调**：分析梦境中的情感氛围和心理状态\n- **关键要素**：解读梦境中的重要元素和符号\n\n### 2. 象征意义分析\n- **传统寓意**：根据周公解梦传统解释象征含义\n- **心理层面**：从现代心理学角度分析潜意识表达\n- **现实映射**：分析梦境与现实生活的对应关系\n\n### 3. 吉凶判断\n- **运势预示**：分析梦境对未来运势的预示\n- **警示信息**：提取梦境中的警示或提醒信息\n- **机遇暗示**：解读梦境中隐含的机遇信息\n\n### 4. 现实指导\n- **行动建议**：基于梦境分析给出实际行动建议\n- **心理调节**：提供心理调节和情绪管理建议\n- **注意事项**：给出生活中需要注意的事项\n\n### 5. 总结\n- **核心要点**：简明扼要地总结梦境的核心信息\n- **指导方向**：给出具体的人生指导方向\n\n**注意事项**：\n- 必须使用Markdown格式输出\n- 使用合适的标题层级（##、###、####）\n- 仅在关键结论和核心要点处谨慎使用**粗体**标记，避免过度使用\n- 使用项目符号和编号列表组织内容\n- 语言要体现你的风格特色，分析要深入透彻，建议要实用可行\n- 回复需控制在" ++ toString DEFAULT_WORD_LIMIT ++ "字以内，重点突出，避免冗余\n- 结合传统周公解梦理论和现代心理学观点进行分析\n- 梦境分析要从象征意义、心理暗示、现实指导三个层面展开"

def palmistryTemplate : String :=
  "请仔细观察这张图片，重点关注其中的手相部分进行分析：\n\n**分析原则**：\n- 如果图片中包含可识别的手相部分（即使同时包含其他内容），请重点分析手相部分\n- 如果图片中完全没有手相内容（如：纯风景、纯人脸照片、纯物品等），请提醒用户上传包含手相的图片\n- 如果手相部分过于模糊或不完整影响分析，可以建议用户提供更清晰的手相图片，但仍需尝试分析可见部分\n- 优先进行分析，只有在完全无法识别手相特征时才建议重新拍摄\n\n## 🤲 手相特征分析\n\n### 1. 主要纹路分析\n- **生命线**：健康状况和生命力分析\n- **智慧线**：思维能力和性格特征解读\n- **感情线**：情感状态和人际关系分析  \n- **事业线**：职业发展和成就潜力预测\n\n### 2. 手掌形状和特征\n- **手掌形状**：手掌形状对性格的影响\n- **手指特征**：手指长短和灵活度的意义\n- **掌纹特色**：手掌厚薄和纹理的含义\n\n### 3. 综合分析\n- **性格天赋**：性格特质和天赋分析\n- **发展趋势**：人生发展趋势预测\n- **改善建议**：改善建议和注意事项\n\n**格式要求**：\n- 必须使用Markdown格式输出\n- 使用合适的标题层级（##、###、####）\n- 仅在关键结论和核心要点处谨慎使用**粗体**标记，避免过度使用\n- 使用项目符号和编号列表组织内容\n- 回复需控制在" ++ toString DEFAULT_WORD_LIMIT ++ "字以内，重点突出，避免冗余"

def baZiMain (wordLimit : Nat) : String :=
  "请按照以下格式解读用户的八字命盘（控制在" ++ toString wordLimit ++ "字以内）：\n\n## 🔯 八字推命解析\n\n### 1. 命格总论\n- **四柱格局**：分析年月日时四柱的整体格局特征\n- **五行平衡**：解读五行配置及其对人生的影响\n- **命理特征**：概述主要的命理特征和人生格局\n\n### 2. 性格天赋\n- **性格特质**：基于日干和四柱组合分析性格特点\n- **行为模式**：解读个人的行为模式和心理特征\n- **天赋优势**：分析个人天赋和发展优势\n\n### 3. 人生运势\n- **事业财运**：分析适合的职业方向和财运特征\n- **感情婚姻**：解读感情观念和婚姻运势\n- **健康状况**：基于五行分析体质和健康注意事项\n\n### 4. 开运指导\n- **五行调理**：提供五行平衡的调理建议\n- **风水方位**：给出有利的方位和颜色建议\n- **生活指导**：提供具体的生活和发展指导"

def baZiQuestionSections : String :=
  "\n\n### 5. 问事分析\n- **具体问事**：针对用户的具体问题进行深入分析\n- **时机把握**：分析问事相关的最佳时机和行动建议\n- **注意事项**：提醒需要注意的问题和规避建议\n- **解决方案**：提供实际可行的解决方案和策略\n\n### 6. 总结\n- **核心要点**：简明扼要地总结八字命理的核心要点\n- **人生指导**：给出最终的人生发展指导方向"

def baZiNoQuestionSections : String :=
  "\n\n### 5. 总结\n- **核心要点**：简明扼要地总结八字命理的核心要点\n- **人生指导**：给出最终的人生发展指导方向"

def baZiTail (wordLimit : Nat) : String :=
  "\n\n**注意事项**：\n- 必须使用Markdown格式输出\n- 使用合适的标题层级（##、###、####）\n- 仅在关键结论和核心要点处谨慎使用**粗体**标记，避免过度使用\n- 使用项目符号和编号列表组织内容\n- 语言要体现你的风格特色，分析要深入透彻，建议要实用可行\n- 回复需控制在" ++ toString wordLimit ++ "字以内，重点突出，避免冗余"

structure GamePromptConfig where
  baseRole : String
  analysisStyle : String
  deriving Repr, DecidableEq

/-- A master record with the optional per-game prompt overrides of
`ExtendedMaster`. -/
structure MasterM where
  id : String
  name : String
  description : String
  prompt : String
  gamePrompts : List (String × GamePromptConfig)
  deriving Repr, DecidableEq

/-- Embedding of `isValidMaster` (lines 103-116). -/
def isValidMasterB (m : MasterM) : Bool :=
  decide (m.id ≠ "" ∧ m.name ≠ "" ∧ m.description ≠ "" ∧ m.prompt ≠ "")

/-- Serialised divination payload: `obj` carries the `JSON.stringify`
rendering of an object payload, `prim` the `String(...)` rendering of a
primitive one (lines 163-167). -/
inductive DivData where
  | obj (json : String)
  | prim (shown : String)
  deriving Repr, DecidableEq

def serializeDivData : DivData → String
  | DivData.obj j => j
  | DivData.prim s => s

structure UserInfoM where
  question : Option String
  serialization : String
  deriving Repr, DecidableEq

/-- The `hasQuestion` test of the bazi branch (lines 220-222). -/
def hasQuestionB : Option UserInfoM → Bool
  | none => false
  | some u =>
    match u.question with
    | none => false
    | some q => decide (trimString q ≠ "")

def replaceFirstL : Str → Str → Str → Str
  | s, pat, rep =>
    if pat.isPrefixOf s then rep ++ s.drop pat.length
    else
      match s with
      | [] => []
      | c :: t => c :: replaceFirstL t pat rep

/-- Embedding of `String.prototype.replace` with a string pattern: replace the
FIRST occurrence only. -/
def replaceFirst (s pat rep : String) : String :=
  String.mk (replaceFirstL s.data pat.data rep.data)

def getLiuYaoPrompt (m : MasterM) : String :=
  "你是" ++ m.name ++ "。" ++ liuYaoTemplate ++ "请结合你的专长进行六爻分析。"

def getQiMenPrompt (m : MasterM) : String :=
  "你是" ++ m.name ++ "。" ++ qiMenTemplate ++ "请结合你的专长进行奇门遁甲分析。"

def getBaZiPrompt (m : MasterM) (hasQuestion : Bool) : String :=
  let wordLimit := if hasQuestion then DEFAULT_WORD_LIMIT + 200 else DEFAULT_WORD_LIMIT
  let basePrompt := baZiMain wordLimit ++
    (if hasQuestion then baZiQuestionSections else baZiNoQuestionSections) ++
    baZiTail wordLimit
  "你是" ++ m.name ++ "。" ++ basePrompt ++ "请结合你的专长进行八字推命分析。"

def getZhouGongPrompt (m : MasterM) : String :=
  "你是" ++ m.name ++ "。" ++ zhouGongTemplate ++ "请结合你的专长进行梦境解读。"

def getPalmistryPrompt (m : MasterM) : String :=
  "你是" ++ m.name ++ "。" ++ palmistryTemplate ++ "请结合你的专长进行手相分析。"

/-- `buildGamePromptFromConfig` (lines 198-202). -/
def buildGamePromptFromConfig (cfg : GamePromptConfig) : String :=
  cfg.baseRole ++ "\n\n" ++ cfg.analysisStyle

def lookupGamePrompt : List (String × GamePromptConfig) → String →
    Option GamePromptConfig
  | [], _ => none
  | (k, v) :: rest, key =>
    if k = key then some v else lookupGamePrompt rest key

/-- `getGameSpecificPrompt` (lines 211-248): dispatch on the game type, then
splice a configured per-game personalised prompt over the generic
"你是{name}。" clause. -/
def getGameSpecificPrompt (m : MasterM) (gt : String) (ui : Option UserInfoM) :
    Option String :=
  let gen : Option String :=
    if gt = "liuyao" then some (getLiuYaoPrompt m)
    else if gt = "qimen" then some (getQiMenPrompt m)
    else if gt = "bazi" then some (getBaZiPrompt m (hasQuestionB ui))
    else if gt = "palmistry" then some (getPalmistryPrompt m)
    else if gt = "zhougong" then some (getZhouGongPrompt m)
    else none
  match gen with
  | none => none
  | some bp =>
    match lookupGamePrompt m.gamePrompts gt with
    | some cfg =>
      some (replaceFirst bp ("你是" ++ m.name ++ "。")
        (buildGamePromptFromConfig cfg ++ "\n\n"))
    | none => some bp

def langBlock : String :=
  "\n\n**严格语言要求**：\n- 回复内容必须100%使用简体中文\n- 严禁使用英文、俄文、日文或任何其他语言\n- 所有术语、解释、建议、标点符号都必须是中文\n- 如遇到专业术语，必须使用中文表达或中文音译"

def formatBlock : String :=
  "\n\n**格式要求**：\n- 必须使用Markdown格式输出\n- 使用合适的标题层级（##、###、####）\n- 仅在关键结论和核心要点处谨慎使用**粗体**标记，避免过度使用\n- 使用项目符号和编号列表组织内容\n- 语言要体现你的风格特色，分析要深入透彻，建议要实用可行"

def userInfoPart : Option UserInfoM → String
  | none => ""
  | some u => "\n\n用户信息：\n" ++ u.serialization

/-- `buildPrompt` (lines 150-190).  A present-but-empty game type string is
falsy in JS, so it neither selects a game prompt nor suppresses the generic
format block. -/
def buildPromptM (m : MasterM) (dd : DivData) (gameType : Option String)
    (ui : Option UserInfoM) : String :=
  let gt? : Option String :=
    match gameType with
    | some g => if g = "" then none else some g
    | none => none
  let p1 :=
    match gt? with
    | some gt =>
      match getGameSpecificPrompt m gt ui with
      | some gp => m.prompt ++ "\n\n" ++ gp
      | none => m.prompt
    | none => m.prompt
  let p2 := p1 ++ "\n\n占卜数据：\n" ++ serializeDivData dd
  let p3 := p2 ++ userInfoPart ui
  let p4 := p3 ++ "\n\n请根据以上信息进行详细的占卜分析："
  let p5 := p4 ++ langBlock
  if gt?.isNone then p5 ++ formatBlock else p5

/-! ## Claim C9 -/

theorem buildPromptM_shape (m : MasterM) (dd : DivData) (gameType : Option String)
    (ui : Option UserInfoM) :
    ∃ front tail : String,
      buildPromptM m dd gameType ui =
        front ++ ("\n\n占卜数据：\n" ++ (serializeDivData dd ++ tail)) ∧
      tail.data ≠ [] := by
  have htail : ∀ t : String,
      (userInfoPart ui ++ ("\n\n请根据以上信息进行详细的占卜分析：" ++ (langBlock ++ t))).data ≠ [] := by
    intro t hc
    simp only [String.data_append, List.append_eq_nil] at hc
    have : langBlock.data = [] := hc.2.2.1
    exact absurd this (by decide)
  cases gameType with
  | none =>
    refine ⟨m.prompt,
      userInfoPart ui ++ ("\n\n请根据以上信息进行详细的占卜分析：" ++ (langBlock ++ formatBlock)), ?_, htail _⟩
    simp only [buildPromptM, Option.isNone_none, if_true, String.append_assoc]
  | some g =>
    by_cases hg : g = ""
    · refine ⟨m.prompt,
        userInfoPart ui ++ ("\n\n请根据以上信息进行详细的占卜分析：" ++ (langBlock ++ formatBlock)), ?_, htail _⟩
      simp only [buildPromptM, hg, if_true, Option.isNone_none, String.append_assoc]
    · refine ⟨(match getGameSpecificPrompt m g ui with
        | some gp => m.prompt ++ "\n\n" ++ gp
        | none => m.prompt),
        userInfoPart ui ++ ("\n\n请根据以上信息进行详细的占卜分析：" ++ (langBlock ++ "")), ?_, htail _⟩
      simp only [buildPromptM, hg, if_false, Option.isNone_some, if_false,
        String.append_assoc]
      cases getGameSpecificPrompt m g ui with
      | none => simp [String.append_assoc]
      | some gp => simp [String.append_assoc]

/-- C9: for every valid master and object payload, prompt assembly is
deterministic, non-empty, and contains the serialised payload verbatim as a
contiguous substring. -/
theorem c9_buildPrompt_deterministic_nonempty_contains (m : MasterM)
    (sd : String) (gameType : Option String) (ui : Option UserInfoM)
    (_hm : isValidMasterB m = true) :
    buildPromptM m (DivData.obj sd) gameType ui =
        buildPromptM m (DivData.obj sd) gameType ui ∧
      (buildPromptM m (DivData.obj sd) gameType ui).data ≠ [] ∧
      ∃ pre post, (buildPromptM m (DivData.obj sd) gameType ui).data =
        pre ++ sd.data ++ post := by
  obtain ⟨front, tail, heq, hne⟩ := buildPromptM_shape m (DivData.obj sd) gameType ui
  refine ⟨rfl, ?_, ?_⟩
  · intro hc
    rw [heq] at hc
    simp only [String.data_append, List.append_eq_nil] at hc
    exact hne hc.2.2.2
  · refine ⟨front.data ++ ("\n\n占卜数据：\n" : String).data, tail.data, ?_⟩
    rw [heq]
    simp [String.data_append, serializeDivData, List.append_assoc]

/-- Witness for C9 at a concrete valid master and payload. -/
theorem c9_witness :
    isValidMasterB ⟨"zhouwenwang", "周文王", "周朝奠基者", "你是周文王。", []⟩ = true ∧
      (buildPromptM ⟨"zhouwenwang", "周文王", "周朝奠基者", "你是周文王。", []⟩
        (DivData.obj "\x7b\"type\":\"liuyao\"\x7d") (some "liuyao") none).data ≠ [] := by
  refine ⟨by decide, ?_⟩
  exact (c9_buildPrompt_deterministic_nonempty_contains
    ⟨"zhouwenwang", "周文王", "周朝奠基者", "你是周文王。", []⟩
    "\x7b\"type\":\"liuyao\"\x7d" (some "liuyao") none (by decide)).2.1

/-! ## Claim C3 -/

/-- C3 (amended): with a non-empty standard-tier result and a sink supplied,
the replay makes at least two sink calls, the calls form a chain of
extensions (hence non-decreasing lengths), every call is a prefix of the
final text, and the last call is the complete text verbatim.  (The final
guard call repeats the full text already emitted by the last loop pass, so
the lengths are NOT strictly increasing; see the counterexample.) -/
theorem c3_simulated_streaming_sink_calls (result : Str) (h : result ≠ []) :
    2 ≤ (simulateSinkCalls result).length ∧
      List.Chain' PrefixOfP (simulateSinkCalls result) ∧
      (∀ x ∈ simulateSinkCalls result, PrefixOfP x result) ∧
      (simulateSinkCalls result).getLastD [] = result := by
  have hne := typeGo_ne_nil [] result h
  refine ⟨?_, ?_, ?_, ?_⟩
  · have hpos : 0 < (typeGo [] result).length := List.length_pos.mpr hne
    simp only [simulateSinkCalls, List.length_append, List.length_singleton]
    omega
  · have hch : List.Chain' PrefixOfP (typeGo [] result) :=
      (typeGo_chain [] result).tail
    rw [simulateSinkCalls, List.chain'_append]
    refine ⟨hch, List.chain'_singleton result, ?_⟩
    intro x hx y hy
    simp only [List.head?_cons, Option.mem_def, Option.some.injEq] at hy
    subst hy
    have hxval : x = result := by
      rw [Option.mem_def] at hx
      have := typeGo_last [] result h []
      rw [List.getLastD_eq_getLast?, hx] at this
      simpa using this
    exact hxval ▸ ⟨[], by simp⟩
  · intro x hx
    rw [simulateSinkCalls, List.mem_append] at hx
    rcases hx with hx1 | hx2
    · simpa using typeGo_mem_pref [] result x hx1
    · rw [List.mem_singleton] at hx2
      exact hx2 ▸ ⟨[], by simp⟩
  · exact List.getLastD_concat _ _ _

/-- C3 counterexample: on the three-character result "abc" the sink receives
the full text twice (last loop pass, then the final guard call), so the call
lengths are 3, 3 — not strictly increasing as the claim states. -/
theorem c3_counterexample :
    simulateSinkCalls "abc".data = ["abc".data, "abc".data] ∧
      (simulateSinkCalls "abc".data).map List.length = [3, 3] ∧
      ¬ List.Chain' (fun a b : Str => a.length < b.length)
        (simulateSinkCalls "abc".data) := by
  have he : simulateSinkCalls "abc".data = ["abc".data, "abc".data] := by decide
  refine ⟨he, by decide, ?_⟩
  rw [he]
  intro hch
  exact absurd (List.chain'_cons.mp hch).1 (by decide)

/-- Witness for C3 at the concrete result "ab". -/
theorem c3_witness :
    "ab".data ≠ [] ∧ 2 ≤ (simulateSinkCalls "ab".data).length :=
  ⟨by decide, (c3_simulated_streaming_sink_calls "ab".data (by decide)).1⟩

/-! ## Claim C10 -/

/-- C10: on a vision-stream line carrying a non-empty `finalText` correction,
the correction is appended exactly when the accumulation does not already
contain it as a contiguous substring; either way the sink is invoked once
with the (possibly unchanged) accumulation, and the loop does not break. -/
theorem c10_vision_finalText_dedup (parse : Str → Option VisionRec)
    (st : AccSt) (l f : Str)
    (hpref : dataMarker.isPrefixOf (trimChars l) = true)
    (hne : (trimChars l).drop 6 ≠ doneSentinel)
    (hparse : parse ((trimChars l).drop 6) = some ⟨none, some f, none, false⟩)
    (hf : f ≠ []) :
    visionLineStep parse st l = (accFinalPush st f, false) ∧
      ((∃ p q, st.acc = p ++ f ++ q) →
        (visionLineStep parse st l).1.acc = st.acc) ∧
      (¬ (∃ p q, st.acc = p ++ f ++ q) →
        (visionLineStep parse st l).1.acc = st.acc ++ f) ∧
      (visionLineStep parse st l).1.calls =
        st.calls ++ [(visionLineStep parse st l).1.acc] := by
  have hstep : visionLineStep parse st l = (accFinalPush st f, false) := by
    simp [visionLineStep, hpref, hne, hparse, hf]
  refine ⟨hstep, ?_, ?_, ?_⟩
  · intro hsub
    have hc : strContains st.acc f = true := (strContains_iff st.acc f).mpr hsub
    rw [hstep]
    simp [accFinalPush, hc]
  · intro hsub
    have hc : strContains st.acc f = false := by
      cases hcc : strContains st.acc f with
      | false => rfl
      | true => exact absurd ((strContains_iff st.acc f).mp hcc) hsub
    rw [hstep]
    simp [accFinalPush, hc]
  · rw [hstep]
    by_cases hc : strContains st.acc f = true <;> simp [accFinalPush, hc]

def c10Line : Str := "data: \x7b\"finalText\":\"hi\"\x7d".data

/-- Witness for C10: a duplicated terminal correction is dropped while the
sink still fires. -/
theorem c10_witness :
    (visionLineStep parseVisionConcrete ⟨"okhi".data, ["okhi".data]⟩ c10Line).1.acc
        = "okhi".data ∧
      (visionLineStep parseVisionConcrete ⟨"okhi".data, ["okhi".data]⟩ c10Line).1.calls
        = ["okhi".data, "okhi".data] := by
  have h := c10_vision_finalText_dedup parseVisionConcrete
    ⟨"okhi".data, ["okhi".data]⟩ c10Line "hi".data
    (by decide) (by decide) (by decide) (by decide)
  refine ⟨?_, ?_⟩
  · exact h.2.1 ⟨"ok".data, [], by decide⟩
  · have hacc := h.2.1 ⟨"ok".data, [], by decide⟩
    have hcalls := h.2.2.2
    rw [hcalls, hacc]
    decide

/-! ## Claim C6 -/

/-- C6 counterexample: a 200 response with an empty candidate list is thrown
as the no-candidates FORMAT error ("API返回数据格式错误：没有候选结果", a
`MalformedResponse`), which is a thrown parse/format failure, not the
`EmptyResult` classification the claim requires. -/
theorem c6_counterexample :
    extractAnalysisText ⟨some []⟩ = Except.error RespErr.noCandidates ∧
      respErrKind RespErr.noCandidates = ErrorKind.MalformedResponse ∧
      respErrKind RespErr.noCandidates ≠ ErrorKind.EmptyResult := by
  exact ⟨rfl, rfl, by decide⟩

/-- C6 (amended): a successful extraction returns a trimmed, non-empty,
non-whitespace string; an empty candidate list fails with the no-candidates
format error (`MalformedResponse`); a present but empty/whitespace candidate
text fails with the empty-result error (`EmptyResult`), not a thrown parse
exception about the shape. -/
theorem c6_success_nonempty_and_empty_text_classification :
    (∀ (d : GResp) (s : String), extractAnalysisText d = Except.ok s →
      s ≠ "" ∧ trimString s = s) ∧
      (extractAnalysisText ⟨some []⟩ = Except.error RespErr.noCandidates ∧
        respErrKind RespErr.noCandidates = ErrorKind.MalformedResponse) ∧
      (∀ (t : String) (ps : List GPart) (rest : List GCand), trimString t = "" →
        extractAnalysisText ⟨some ({ content := some ⟨⟨some t⟩ :: ps⟩ } :: rest)⟩ =
            Except.error RespErr.emptyText ∧
          respErrKind RespErr.emptyText = ErrorKind.EmptyResult) := by
  refine ⟨?_, ⟨rfl, rfl⟩, ?_⟩
  · intro d s hok
    obtain ⟨cands⟩ := d
    cases cands with
    | none => simp [extractAnalysisText] at hok
    | some cs =>
      cases cs with
      | nil => simp [extractAnalysisText] at hok
      | cons cand rest =>
        obtain ⟨ct⟩ := cand
        cases ct with
        | none => simp [extractAnalysisText] at hok
        | some content =>
          obtain ⟨parts⟩ := content
          cases parts with
          | nil => simp [extractAnalysisText] at hok
          | cons p ps =>
            obtain ⟨txt⟩ := p
            cases txt with
            | none => simp [extractAnalysisText] at hok
            | some t =>
              by_cases htr : trimString t = ""
              · simp [extractAnalysisText, htr] at hok
              · simp only [extractAnalysisText, htr, if_false, Except.ok.injEq] at hok
                subst hok
                refine ⟨htr, ?_⟩
                show trimString (trimString t) = trimString t
                simp only [trimString]
                show String.mk (trimChars (trimChars t.data)) = String.mk (trimChars t.data)
                rw [trimChars_idem]
  · intro t ps rest htr
    exact ⟨by simp [extractAnalysisText, htr], rfl⟩

/-- Witness for C6 at a concrete padded response. -/
theorem c6_witness :
    extractAnalysisText ⟨some [{ content := some ⟨[⟨some " 解读结果 "⟩]⟩ }]⟩ =
        Except.ok "解读结果" ∧ ("解读结果" : String) ≠ "" := by
  have hok : extractAnalysisText ⟨some [{ content := some ⟨[⟨some " 解读结果 "⟩]⟩ }]⟩ =
      Except.ok "解读结果" := by decide
  exact ⟨hok,
    (c6_success_nonempty_and_empty_text_classification.1 _ _ hok).1⟩

/-! ## Claim C8 -/

/-- C8 counterexample: the text classifier has no 413 case, so HTTP 413 falls
to the generic default branch (kind `Unknown`, not `InvalidInput`); and only
status 500 reaches the server-fault message, so another 5xx status (502)
also falls to the default branch (kind `Unknown`, not `ServerFault`) in BOTH
classifiers. -/
theorem c8_counterexample :
    classifyTextError ⟨true, some (413, none), false, false⟩ =
        ClassifiedErr.httpOther 413 "未知错误" ∧
      classifiedKind (classifyTextError ⟨true, some (413, none), false, false⟩) ≠
        ErrorKind.InvalidInput ∧
      classifyTextError ⟨true, some (502, none), false, false⟩ =
        ClassifiedErr.httpOther 502 "未知错误" ∧
      classifiedKind (classifyTextError ⟨true, some (502, none), false, false⟩) ≠
        ErrorKind.ServerFault ∧
      classifyVisionError ⟨true, some (502, none), false, false⟩ =
        ClassifiedErr.httpOther 502 "未知错误" ∧
      classifiedKind (classifyVisionError ⟨true, some (502, none), false, false⟩) ≠
        ErrorKind.ServerFault := by
  decide

/-- C8 (amended): both catch blocks are total functions of the error shape.
They map 400 to `InvalidInput` carrying the provider detail, 401 to
`AuthInvalid`, 403 to `PermissionDenied`, 429 to `RateLimited`, 500 (exactly)
to `ServerFault`, an axios error holding a request but no response to
`NetworkUnreachable`, and a reached timeout code to `Timeout`; 413 maps to
`InvalidInput` in the VISION classifier only, while in the text classifier
413 — like every other unlisted status, including 5xx other than 500 —
falls to the generic default branch (`Unknown`). -/
theorem c8_classification_table :
    (∀ detail : Option String,
      classifyTextError ⟨true, some (400, detail), false, false⟩ =
          ClassifiedErr.invalidInput (detail.getD "请求参数有误") ∧
        classifiedKind (classifyTextError ⟨true, some (400, detail), false, false⟩) =
          ErrorKind.InvalidInput ∧
        classifyVisionError ⟨true, some (400, detail), false, false⟩ =
          ClassifiedErr.invalidInput (detail.getD "请求参数有误，请检查图片格式和大小")) ∧
      (∀ detail : Option String,
        classifiedKind (classifyTextError ⟨true, some (401, detail), false, false⟩) =
            ErrorKind.AuthInvalid ∧
          classifiedKind (classifyTextError ⟨true, some (403, detail), false, false⟩) =
            ErrorKind.PermissionDenied ∧
          classifiedKind (classifyTextError ⟨true, some (429, detail), false, false⟩) =
            ErrorKind.RateLimited ∧
          classifiedKind (classifyTextError ⟨true, some (500, detail), false, false⟩) =
            ErrorKind.ServerFault ∧
          classifiedKind (classifyVisionError ⟨true, some (413, detail), false, false⟩) =
            ErrorKind.InvalidInput ∧
          classifiedKind (classifyVisionError ⟨true, some (500, detail), false, false⟩) =
            ErrorKind.ServerFault) ∧
      (∀ detail : Option String,
        classifiedKind (classifyVisionError ⟨true, some (401, detail), false, false⟩) =
            ErrorKind.AuthInvalid ∧
          classifiedKind (classifyVisionError ⟨true, some (403, detail), false, false⟩) =
            ErrorKind.PermissionDenied ∧
          classifiedKind (classifyVisionError ⟨true, some (429, detail), false, false⟩) =
            ErrorKind.RateLimited) ∧
      (∀ request timeoutCode : Bool,
        classifyTextError ⟨true, none, true, timeoutCode⟩ =
            ClassifiedErr.networkUnreachable ∧
          classifyTextError ⟨true, none, false, true⟩ = ClassifiedErr.timeout ∧
          classifyTextError ⟨false, none, request, true⟩ = ClassifiedErr.timeout ∧
          classifyVisionError ⟨true, none, true, timeoutCode⟩ =
            ClassifiedErr.networkUnreachable ∧
          classifyVisionError ⟨true, none, false, true⟩ = ClassifiedErr.timeout ∧
          classifyVisionError ⟨false, none, request, true⟩ = ClassifiedErr.timeout) ∧
      (∀ (s : Nat) (detail : Option String),
        s ≠ 400 → s ≠ 401 → s ≠ 403 → s ≠ 429 → s ≠ 500 →
        classifiedKind (classifyTextError ⟨true, some (s, detail), false, false⟩) =
          ErrorKind.Unknown) ∧
      (∀ (s : Nat) (detail : Option String),
        s ≠ 400 → s ≠ 401 → s ≠ 403 → s ≠ 413 → s ≠ 429 → s ≠ 500 →
        classifiedKind (classifyVisionError ⟨true, some (s, detail), false, false⟩) =
          ErrorKind.Unknown) := by
  refine ⟨?_, ?_, ?_, ?_, ?_, ?_⟩
  · intro detail
    refine ⟨?_, ?_, ?_⟩ <;> simp [classifyTextError, classifyVisionError, classifiedKind]
  · intro detail
    refine ⟨?_, ?_, ?_, ?_, ?_, ?_⟩ <;>
      simp [classifyTextError, classifyVisionError, classifiedKind]
  · intro detail
    refine ⟨?_, ?_, ?_⟩ <;> simp [classifyVisionError, classifiedKind]
  · intro request timeoutCode
    refine ⟨?_, ?_, ?_, ?_, ?_, ?_⟩ <;> simp [classifyTextError, classifyVisionError]
  · intro s detail h400 h401 h403 h429 h500
    simp [classifyTextError, classifiedKind, h400, h401, h403, h429, h500]
  · intro s detail h400 h401 h403 h413 h429 h500
    simp [classifyVisionError, classifiedKind, h400, h401, h403, h413, h429, h500]

/-- Witness for C8 at status 502 with a provider detail, in both classifiers. -/
theorem c8_witness :
    classifiedKind (classifyTextError ⟨true, some (502, some "bad gateway"), false, false⟩) =
        ErrorKind.Unknown ∧
      classifiedKind (classifyVisionError ⟨true, some (502, some "bad gateway"), false, false⟩) =
        ErrorKind.Unknown :=
  ⟨c8_classification_table.2.2.2.2.1 502 (some "bad gateway") (by decide) (by decide)
      (by decide) (by decide) (by decide),
    c8_classification_table.2.2.2.2.2 502 (some "bad gateway") (by decide) (by decide)
      (by decide) (by decide) (by decide) (by decide)⟩

/-! ## Claim C4 -/

/-- C4: over decoded content/text records, the proxy tier accumulates
ADDITIVELY — the final text is the trimmed concatenation, in arrival order,
of every decoded `content` delta — while the direct tier REPLACES — each
record's `text` overwrites the accumulation and the final text is the
trimmed last received `text` value, not a concatenation. -/
theorem c4_additive_vs_replacement (parseP : Str → Option ProxyRec)
    (parseD : Str → Option DirectRec) (lsP csP lsD tsD : List Str)
    (hP : proxyLinesMatchB parseP lsP csP = true)
    (hD : directLinesMatchB parseD lsD tsD = true) :
    (runLines (proxyLineStep parseP) lsP ⟨[], []⟩).acc = csP.flatten ∧
      (trimChars csP.flatten ≠ [] →
        proxyStreamResultOf (runLines (proxyLineStep parseP) lsP ⟨[], []⟩) =
          Except.ok (trimChars csP.flatten)) ∧
      (runLines (directLineStep parseD) lsD ⟨[], []⟩).full = tsD.getLastD [] ∧
      (trimChars (tsD.getLastD []) ≠ [] →
        directStreamResultOf (runLines (directLineStep parseD) lsD ⟨[], []⟩) =
          Except.ok (trimChars (tsD.getLastD []))) := by
  have h1 := proxy_runLines_content parseP lsP csP ⟨[], []⟩ hP
  have h2 := direct_runLines_text parseD lsD tsD ⟨[], []⟩ hD
  refine ⟨?_, ?_, ?_, ?_⟩
  · simp [h1]
  · intro htr
    simp [h1, proxyStreamResultOf, htr]
  · simp [h2]
  · intro htr
    simp only [List.getLastD_eq_getLast?] at htr
    simp [h2, directStreamResultOf, htr]

/-- Witness for C4 on concrete proxy deltas ["ab","cd"] (concatenated) and
direct cumulative texts ["x","xy"] (last one wins). -/
theorem c4_witness :
    (runLines (proxyLineStep parseProxyConcrete)
        [mkProxyContentLine "ab".data, mkProxyContentLine "cd".data] ⟨[], []⟩).acc
        = "abcd".data ∧
      (runLines (directLineStep parseDirectConcrete)
        [mkDirectTextLine "x".data, mkDirectTextLine "xy".data] ⟨[], []⟩).full
        = "xy".data := by
  have h := c4_additive_vs_replacement parseProxyConcrete parseDirectConcrete
    [mkProxyContentLine "ab".data, mkProxyContentLine "cd".data]
    ["ab".data, "cd".data]
    [mkDirectTextLine "x".data, mkDirectTextLine "xy".data]
    ["x".data, "xy".data] (by decide) (by decide)
  exact ⟨by rw [h.1]; decide, by rw [h.2.2.1]; decide⟩

/-! ## Claim C5 -/

theorem accInv_init : AccInv ⟨[], []⟩ :=
  ⟨List.chain'_nil, fun _ => rfl, fun h => absurd rfl h⟩

theorem dirInv_init : DirInv ⟨[], []⟩ :=
  ⟨fun _ => rfl, fun h => absurd rfl h⟩

theorem accResultLast (st : AccSt) (hinv : AccInv st) (s : Str) (msg : String)
    (hok : (if trimChars st.acc = [] then Except.error msg
      else Except.ok (trimChars st.acc)) = Except.ok s) :
    st.calls ≠ [] ∧ s = trimChars (st.calls.getLastD []) := by
  by_cases htr : trimChars st.acc = []
  · rw [if_pos htr] at hok
    exact absurd hok (by simp)
  · rw [if_neg htr] at hok
    have hs : s = trimChars st.acc := (Except.ok.inj hok).symm
    have hcne : st.calls ≠ [] := by
      intro hc
      exact htr (by rw [hinv.2.1 hc]; rfl)
    exact ⟨hcne, by rw [hs, hinv.2.2 hcne]⟩

def c5Chunk : Str :=
  mkDirectTextLine "hello".data ++ ['\n'] ++ mkDirectTextLine "hi ".data ++ ['\n']

/-- C5 counterexample: a direct-tier stream whose second cumulative text is
shorter than the first and carries trailing whitespace.  The request
completes successfully returning "hi", but the sink-call lengths DECREASE
(5 then 3) and the final sink update ("hi ") is not the returned text
("hi", trimmed). -/
theorem c5_counterexample :
    (directStreamDecode parseDirectConcrete [c5Chunk]).inner.calls =
        ["hello".data, "hi ".data] ∧
      ((directStreamDecode parseDirectConcrete [c5Chunk]).inner.calls.map
        List.length) = [5, 3] ∧
      directStreamResultOf (directStreamDecode parseDirectConcrete [c5Chunk]).inner =
        Except.ok "hi".data ∧
      (directStreamDecode parseDirectConcrete [c5Chunk]).inner.calls.getLastD []
        ≠ "hi".data := by
  decide

/-- C5 (amended): in the proxy text and vision streaming tiers the sink calls
form a chain of extensions (lengths non-decreasing); in every streaming tier
a successful return equals the TRIM of the final sink update (so the final
update matches the returned text only up to whitespace trimming); the direct
tier gives no length guarantee — its updates follow the received cumulative
texts, which may shrink (see the counterexample). -/
theorem c5_sink_monotonicity_and_final_update (parseP : Str → Option ProxyRec)
    (parseV : Str → Option VisionRec) (parseD : Str → Option DirectRec)
    (chunksP chunksV chunksD : List Str) :
    List.Chain' PrefixOfP
        (decodeChunksNoBuf (proxyLineStep parseP) ⟨[], []⟩ chunksP).calls ∧
      (∀ s, proxyStreamResultOf
          (decodeChunksNoBuf (proxyLineStep parseP) ⟨[], []⟩ chunksP) =
            Except.ok s →
        (decodeChunksNoBuf (proxyLineStep parseP) ⟨[], []⟩ chunksP).calls ≠ [] ∧
          s = trimChars ((decodeChunksNoBuf (proxyLineStep parseP) ⟨[], []⟩
            chunksP).calls.getLastD [])) ∧
      List.Chain' PrefixOfP
        (decodeChunksNoBuf (visionLineStep parseV) ⟨[], []⟩ chunksV).calls ∧
      (∀ s, visionStreamResultOf
          (decodeChunksNoBuf (visionLineStep parseV) ⟨[], []⟩ chunksV) =
            Except.ok s →
        (decodeChunksNoBuf (visionLineStep parseV) ⟨[], []⟩ chunksV).calls ≠ [] ∧
          s = trimChars ((decodeChunksNoBuf (visionLineStep parseV) ⟨[], []⟩
            chunksV).calls.getLastD [])) ∧
      (∀ s, directStreamResultOf (directStreamDecode parseD chunksD).inner =
          Except.ok s →
        (directStreamDecode parseD chunksD).inner.calls ≠ [] ∧
          s = trimChars ((directStreamDecode parseD
            chunksD).inner.calls.getLastD [])) := by
  have hPinv : AccInv (decodeChunksNoBuf (proxyLineStep parseP) ⟨[], []⟩ chunksP) :=
    decodeChunksNoBuf_preserve _ AccInv
      (fun st l => proxyLineStep_preserves_inv parseP st l) chunksP _ accInv_init
  have hVinv : AccInv (decodeChunksNoBuf (visionLineStep parseV) ⟨[], []⟩ chunksV) :=
    decodeChunksNoBuf_preserve _ AccInv
      (fun st l => visionLineStep_preserves_inv parseV st l) chunksV _ accInv_init
  have hDinv : DirInv (directStreamDecode parseD chunksD).inner :=
    decodeChunksBuf_preserve _ DirInv
      (fun st l => directLineStep_preserves_inv parseD st l) chunksD _ dirInv_init
  refine ⟨hPinv.1, ?_, hVinv.1, ?_, ?_⟩
  · intro s hok
    exact accResultLast _ hPinv s _ hok
  · intro s hok
    exact accResultLast _ hVinv s _ hok
  · intro s hok
    set st := (directStreamDecode parseD chunksD).inner with hst
    by_cases htr : trimChars st.full = []
    · rw [directStreamResultOf, htr] at hok
      simp at hok
    · rw [directStreamResultOf, if_neg htr] at hok
      have hs : s = trimChars st.full := by
        injection hok with h'
        exact h'.symm
      have hcne : st.calls ≠ [] := by
        intro hc
        exact htr (by rw [hDinv.1 hc]; rfl)
      exact ⟨hcne, by rw [hs, hDinv.2 hcne]⟩

/-- Witness for C5 at a concrete successful proxy stream. -/
theorem c5_witness :
    proxyStreamResultOf (decodeChunksNoBuf (proxyLineStep parseProxyConcrete)
        ⟨[], []⟩ [mkProxyContentLine "hi".data ++ ['\n']]) = Except.ok "hi".data ∧
      (decodeChunksNoBuf (proxyLineStep parseProxyConcrete) ⟨[], []⟩
        [mkProxyContentLine "hi".data ++ ['\n']]).calls ≠ [] :=
  ⟨by decide,
    ((c5_sink_monotonicity_and_final_update parseProxyConcrete
      parseVisionConcrete parseDirectConcrete
      [mkProxyContentLine "hi".data ++ ['\n']] [] []).2.1 "hi".data (by decide)).1⟩

theorem splitLinesP_nlfree_prepend (x : Str) (r : Str) (l : Str) (ls : List Str)
    (r2 : Str) (hx : ∀ c ∈ x, c ≠ '\n')
    (hr : splitLinesP r = (l :: ls, r2)) :
    splitLinesP (x ++ r) = ((x ++ l) :: ls, r2) := by
  induction x with
  | nil => simpa using hr
  | cons c cs ih =>
    have hc : c ≠ '\n' := hx c (by simp)
    have hrec := ih fun d hd => hx d (by simp [hd])
    show splitLinesP (c :: (cs ++ r)) = _
    simp only [splitLinesP, hc, if_false]
    rw [hrec]
    simp

/-- For the UNBUFFERED decoders a chunk boundary behaves exactly like an
inserted line terminator: feeding `[a, b]` is feeding the single chunk
`a ++ '\n' ++ b` (when no piece of `a` triggers the loop break).  The
fragment of a line cut at the boundary is therefore decoded on its own —
and, failing to parse, dropped — never carried over into the next chunk. -/
theorem feedChunkNoBuf_boundary {σ : Type} (step : σ → Str → σ × Bool)
    (st : σ) (a b : Str)
    (hfree : ∀ l ∈ (splitLinesP a).1 ++ [(splitLinesP a).2], ∀ st' : σ,
      (step st' l).2 = false) :
    feedChunkNoBuf step (feedChunkNoBuf step st a) b =
      feedChunkNoBuf step st (a ++ '\n' :: b) := by
  have hsplit : splitLinesP (a ++ '\n' :: b) =
      ((splitLinesP a).1 ++ (splitLinesP a).2 :: (splitLinesP b).1,
        (splitLinesP b).2) := by
    have hnl : splitLinesP (('\n' : Char) :: b) =
        ([] :: (splitLinesP b).1, (splitLinesP b).2) := by
      simp [splitLinesP]
    have hmid := splitLinesP_nlfree_prepend (splitLinesP a).2 ('\n' :: b) []
      (splitLinesP b).1 (splitLinesP b).2 (splitLinesP_rem_no_newline a) hnl
    rw [splitLinesP_append a ('\n' :: b), hmid]
    simp
  unfold feedChunkNoBuf
  rw [hsplit]
  have hlist : ((splitLinesP a).1 ++ (splitLinesP a).2 :: (splitLinesP b).1)
        ++ [(splitLinesP b).2]
      = ((splitLinesP a).1 ++ [(splitLinesP a).2])
        ++ ((splitLinesP b).1 ++ [(splitLinesP b).2]) := by
    simp
  show runLines step ((splitLinesP b).1 ++ [(splitLinesP b).2])
      (runLines step ((splitLinesP a).1 ++ [(splitLinesP a).2]) st) = _
  rw [hlist, runLines_append step _ _ st hfree]

/-! ## Claim C2 -/

def c2Whole : Str := "data: \x7b\"content\":\"hi\"\x7d\n".data

def c2SplitA : Str := "data: \x7b\"co".data

def c2SplitB : Str := "ntent\":\"hi\"\x7d\n".data

/-- C2 counterexample: the proxy SSE decoder (`getServerStreamAnalysis`) has
no carry-over buffer — each chunk is split on newlines alone.  Splitting one
complete `data: ` event across two chunks leaves a fragment that fails to
parse and a fragment without the `data: ` marker, so the split feed decodes
NOTHING (and the call then throws the empty-data error) while the whole feed
decodes the event. -/
theorem c2_counterexample :
    c2SplitA ++ c2SplitB = c2Whole ∧
      getServerStreamAnalysisModel parseProxyConcrete [c2Whole] =
        (Except.ok "hi".data, ["hi".data]) ∧
      getServerStreamAnalysisModel parseProxyConcrete [c2SplitA, c2SplitB] =
        (Except.error "后端服务器未返回有效数据", []) ∧
      getServerStreamAnalysisModel parseProxyConcrete [c2SplitA, c2SplitB] ≠
        getServerStreamAnalysisModel parseProxyConcrete [c2Whole] := by
  decide

/-- C2 (amended): the DIRECT streaming decoder — the one that maintains a
carry-over buffer — yields an identical decoder state (same decoded events
and sink calls, same final accumulated text, same residual buffer) however
the stream is split into N ≥ 1 chunks, provided no complete line before the
final one triggers the loop break (a `finishReason` record); in particular a
line split across a chunk boundary is carried over and decoded identically.
The PROXY SSE decoder has NO carry-over buffer: a chunk boundary behaves
exactly like an inserted line terminator — feeding chunks `[a, b]` equals
feeding the single chunk `a ++ '\n' ++ b` — so the fragment of a `data: `
line cut at a chunk boundary is decoded on its own and, failing to parse,
dropped rather than carried over (the counterexample shows a split event
decoding to nothing while the whole stream decodes it). -/
theorem c2_chunk_boundary_semantics (parseD : Str → Option DirectRec)
    (parseP : Str → Option ProxyRec) (cs : List Str) (st : AccSt) (a b : Str)
    (hbrkD : ∀ l ∈ ((splitLinesP cs.flatten).1).dropLast,
      directBrkOf parseD l = false)
    (hbrkP : ∀ l ∈ (splitLinesP a).1 ++ [(splitLinesP a).2],
      proxyBrkOf parseP l = false) :
    directStreamDecode parseD cs = directStreamDecode parseD [cs.flatten] ∧
      decodeChunksNoBuf (proxyLineStep parseP) st [a, b] =
        decodeChunksNoBuf (proxyLineStep parseP) st [a ++ '\n' :: b] := by
  constructor
  · exact decodeChunksBuf_chunk_indep (directLineStep parseD) (directBrkOf parseD)
      (directLineStep_snd parseD) ⟨[], []⟩ cs hbrkD
  · show feedChunkNoBuf (proxyLineStep parseP)
      (feedChunkNoBuf (proxyLineStep parseP) st a) b = _
    rw [feedChunkNoBuf_boundary]
    · rfl
    · intro l hl st2
      rw [proxyLineStep_snd]
      exact hbrkP l hl

def c2DirectA : Str := (mkDirectTextLine "hel".data).take 20

def c2DirectB : Str := (mkDirectTextLine "hel".data).drop 20 ++ ['\n']

def c2ProxyA : Str := mkProxyContentLine "hi".data

def c2ProxyB : Str := mkProxyContentLine "yo".data ++ ['\n']

/-- Witness for C2: a direct record line split mid-JSON across two chunks
decodes exactly as the unsplit stream, and a proxy chunk boundary decodes
exactly as an inserted newline. -/
theorem c2_witness :
    (∀ l ∈ ((splitLinesP ([c2DirectA, c2DirectB].flatten)).1).dropLast,
      directBrkOf parseDirectConcrete l = false) ∧
      directStreamDecode parseDirectConcrete [c2DirectA, c2DirectB] =
        directStreamDecode parseDirectConcrete [[c2DirectA, c2DirectB].flatten] ∧
      (directStreamDecode parseDirectConcrete [c2DirectA, c2DirectB]).inner.full =
        "hel".data ∧
      decodeChunksNoBuf (proxyLineStep parseProxyConcrete) ⟨[], []⟩
          [c2ProxyA, c2ProxyB] =
        decodeChunksNoBuf (proxyLineStep parseProxyConcrete) ⟨[], []⟩
          [c2ProxyA ++ '\n' :: c2ProxyB] :=
  ⟨by decide,
    (c2_chunk_boundary_semantics parseDirectConcrete parseProxyConcrete
      [c2DirectA, c2DirectB] ⟨[], []⟩ c2ProxyA c2ProxyB (by decide) (by decide)).1,
    by decide,
    (c2_chunk_boundary_semantics parseDirectConcrete parseProxyConcrete
      [c2DirectA, c2DirectB] ⟨[], []⟩ c2ProxyA c2ProxyB (by decide) (by decide)).2⟩

/-! ## Claims C1 and C7 -/

theorem standardRest_no_proxy_events (sc kv mv : Bool)
    (ds : Except String String) :
    (standardRest sc kv mv ds).2.countP isProxyCallEv = 0 ∧
      (standardRest sc kv mv ds).2.countP isProbeEv = 0 := by
  unfold standardRest
  cases kv <;> cases mv <;> cases ds <;>
    simp [List.countP_cons, isProxyCallEv, isProbeEv]

theorem getAIAnalysisModel_proxy_events (mv sc kv : Bool) (h : List Bool)
    (p : List (Option String)) (d : Except String String) :
    (getAIAnalysisModel mv sc kv h p d).2.countP isProxyCallEv ≤ 1 ∧
      (getAIAnalysisModel mv sc kv h p d).2.countP isProbeEv ≤ 1 := by
  obtain ⟨hs1, hs2⟩ := standardRest_no_proxy_events sc kv mv d
  unfold getAIAnalysisModel
  cases sc with
  | false => simp [hs1, hs2]
  | true =>
    cases hh : h.headD false with
    | false => simp [List.countP_cons, isProxyCallEv, isProbeEv, hs1, hs2]
    | true =>
      cases hp : p.headD none with
      | none => simp [List.countP_cons, isProxyCallEv, isProbeEv, hs1, hs2]
      | some s => simp [List.countP_cons, isProxyCallEv, isProbeEv]

theorem streamRest_proxy_events (w : World) (h2 : List Bool)
    (p2 : List (Option String)) :
    (streamRest w h2 p2).2.countP isProxyCallEv ≤ 1 ∧
      (streamRest w h2 p2).2.countP isProbeEv ≤ 1 ∧
      (1 ≤ (streamRest w h2 p2).2.countP isProxyCallEv ∨
          1 ≤ (streamRest w h2 p2).2.countP isProbeEv →
        Ev.directStreamCall none ∈ (streamRest w h2 p2).2) := by
  unfold streamRest
  cases hkv : w.keyValid with
  | false => simp [List.countP_cons, isProxyCallEv, isProbeEv]
  | true =>
    cases hds : w.directStream with
    | some s => simp [List.countP_cons, isProxyCallEv, isProbeEv]
    | none =>
      obtain ⟨hg1, hg2⟩ := getAIAnalysisModel_proxy_events w.masterValid
        w.serverConfigured true h2 p2 w.directStandard
      refine ⟨?_, ?_, ?_⟩
      · simpa [List.countP_cons, isProxyCallEv] using hg1
      · simpa [List.countP_cons, isProbeEv] using hg2
      · intro _
        simp

/-- C1 (amended): a request makes at most two proxy calls and at most two
proxy health checks; a second proxy call or probe happens only on a request
whose direct streaming attempt failed, because the final standard fallback
(`getAIAnalysis`) re-reads the settings and re-probes the configured proxy.
Up to that final fallback the proxy fallback is one-way. -/
theorem c1_second_proxy_attempt_only_after_stream_failure (w : World) :
    countProxyCalls (getAIAnalysisStreamModel w).2 ≤ 2 ∧
      countProbes (getAIAnalysisStreamModel w).2 ≤ 2 ∧
      (countProxyCalls (getAIAnalysisStreamModel w).2 = 2 ∨
          countProbes (getAIAnalysisStreamModel w).2 = 2 →
        Ev.directStreamCall none ∈ (getAIAnalysisStreamModel w).2) := by
  unfold getAIAnalysisStreamModel countProxyCalls countProbes
  cases hmv : w.masterValid with
  | false => simp [List.countP_nil]
  | true =>
    cases hsc : w.serverConfigured with
    | false =>
      obtain ⟨h1, h2, h3⟩ := streamRest_proxy_events w w.health w.proxy
      refine ⟨by simpa using Nat.le_succ_of_le h1,
        by simpa using Nat.le_succ_of_le h2, ?_⟩
      intro hor
      rcases hor with hc | hc
      · simp at hc
        refine h3 (Or.inl ?_)
        omega
      · simp at hc
        refine h3 (Or.inr ?_)
        omega
    | true =>
      cases hh : w.health.headD false with
      | true =>
        cases hp : w.proxy.headD none with
        | some s =>
          refine ⟨?_, ?_, ?_⟩
          · simp [List.countP_cons, isProxyCallEv, isProbeEv]
          · simp [List.countP_cons, isProxyCallEv, isProbeEv]
          · intro hor
            simp [List.countP_cons, isProxyCallEv, isProbeEv] at hor
        | none =>
          obtain ⟨h1, h2, h3⟩ := streamRest_proxy_events w w.health.tail w.proxy.tail
          refine ⟨?_, ?_, ?_⟩
          · simp [List.countP_cons, isProxyCallEv, isProbeEv]
            omega
          · simp [List.countP_cons, isProxyCallEv, isProbeEv]
            omega
          · intro hor
            have hmem : Ev.directStreamCall none ∈
                (streamRest w w.health.tail w.proxy.tail).2 := by
              apply h3
              simp [List.countP_cons, isProxyCallEv, isProbeEv] at hor
              omega
            simp [hmem]
      | false =>
        obtain ⟨h1, h2, h3⟩ := streamRest_proxy_events w w.health.tail w.proxy
        refine ⟨?_, ?_, ?_⟩
        · simp [List.countP_cons, isProxyCallEv, isProbeEv]
          omega
        · simp [List.countP_cons, isProxyCallEv, isProbeEv]
          omega
        · intro hor
          have hmem : Ev.directStreamCall none ∈
              (streamRest w w.health.tail w.proxy).2 := by
            apply h3
            simp [List.countP_cons, isProxyCallEv, isProbeEv] at hor
            omega
          simp [hmem]

def c1World : World :=
  ⟨true, true, [true, true], [none, some "ok"], true, none, Except.ok "x"⟩

/-- C1 counterexample: proxy healthy but its call fails, the direct streaming
attempt fails, and the final standard fallback re-probes the proxy and makes
a SECOND proxy call — after a failed proxy call the request performs another
proxy health check and proxy call, refuting the one-way-fallback claim. -/
theorem c1_counterexample :
    (getAIAnalysisStreamModel c1World).2 =
        [Ev.probe true, Ev.proxyCall none, Ev.keyCheck true,
          Ev.directStreamCall none, Ev.probe true, Ev.proxyCall (some "ok")] ∧
      violatesOneWay (getAIAnalysisStreamModel c1World).2 = true ∧
      countProxyCalls (getAIAnalysisStreamModel c1World).2 = 2 ∧
      countProbes (getAIAnalysisStreamModel c1World).2 = 2 ∧
      (getAIAnalysisStreamModel c1World).1 = Except.ok "ok" := by
  decide

/-- Witness for C1: the double-proxy-attempt world indeed contains the failed
direct streaming attempt the amended claim requires. -/
theorem c1_witness :
    countProxyCalls (getAIAnalysisStreamModel c1World).2 = 2 ∧
      Ev.directStreamCall none ∈ (getAIAnalysisStreamModel c1World).2 :=
  ⟨by decide,
    (c1_second_proxy_attempt_only_after_stream_failure c1World).2.2
      (Or.inl (by decide))⟩

/-- C7: while a proxy is configured, healthy and its call succeeds, the
request returns the proxy result without ever reaching the API-key check;
and when the proxy probe fails with no valid key configured, the request
fails with the message naming both the unavailable server and the missing
key. -/
theorem c7_key_check_skipped_and_combined_message (w : World) (s : String)
    (hmv : w.masterValid = true) (hsc : w.serverConfigured = true) :
    (w.health.headD false = true → w.proxy.headD none = some s →
      getAIAnalysisStreamModel w =
          (Except.ok s, [Ev.probe true, Ev.proxyCall (some s)]) ∧
        ∀ b, Ev.keyCheck b ∉ (getAIAnalysisStreamModel w).2) ∧
      (w.health.headD false = false → w.keyValid = false →
        (getAIAnalysisStreamModel w).1 = Except.error msgServerDownNoKey ∧
          strContains msgServerDownNoKey.data "后端服务器不可用".data = true ∧
          strContains msgServerDownNoKey.data "未配置有效的Gemini API密钥".data = true) := by
  constructor
  · intro hh hp
    have heq : getAIAnalysisStreamModel w =
        (Except.ok s, [Ev.probe true, Ev.proxyCall (some s)]) := by
      unfold getAIAnalysisStreamModel
      rw [List.headD_eq_head?] at hh hp
      simp [hmv, hsc, hh, hp]
    refine ⟨heq, ?_⟩
    intro b
    rw [heq]
    simp
  · intro hh hkv
    refine ⟨?_, by decide, by decide⟩
    unfold getAIAnalysisStreamModel streamRest
    rw [List.headD_eq_head?] at hh
    simp [hmv, hsc, hh, hkv]

def c7WorldA : World := ⟨true, true, [true], [some "回答"], false, none, Except.error "x"⟩

def c7WorldB : World := ⟨true, true, [false], [], false, none, Except.error "x"⟩

/-- Witness for C7: a healthy proxy serves the request with no key check even
though the key is invalid; an unreachable proxy with an invalid key yields
the combined error message. -/
theorem c7_witness :
    getAIAnalysisStreamModel c7WorldA =
        (Except.ok "回答", [Ev.probe true, Ev.proxyCall (some "回答")]) ∧
      (getAIAnalysisStreamModel c7WorldB).1 = Except.error msgServerDownNoKey :=
  ⟨((c7_key_check_skipped_and_combined_message c7WorldA "回答" (by decide)
      (by decide)).1 (by decide) (by decide)).1,
    ((c7_key_check_skipped_and_combined_message c7WorldB "" (by decide)
      (by decide)).2 (by decide) (by decide)).1⟩
